import Mathlib

/-! # SMF mesh ingestion and input rig: a shallow embedding

Two programs are embedded, each in its own namespace:

* `SmfViewer`   : `src/smf_viewer.cpp`   (`load_smf`, `build_mesh_from_smf`, `processInput`)
* `ShadingDemo` : `src/shading_demo.cpp` (`loadSMF`, `buildMeshFromSMF`, `keyPressedOnce`,
  `processContinuousInput`)

Conventions.

* A text line is a `List Char`; an opened file is the list of lines that successive
  `std::getline` calls return; `none` stands for a path that cannot be opened.
* `int` values are integers with explicit 32-bit wrap-around (`wrapInt32`) where the source
  subtracts; the conversions to `size_t` and `unsigned int` are explicit (`toSizeT`, `toUInt`).
* `float` values are elements of a linearly ordered field `K`; the square root used by
  `glm::length` and `glm::normalize` is a parameter `sqrt : K → K`, instantiated with
  `Real.sqrt` when a statement is read over the reals.
* The standard library's `operator>>` for `float` is a parameter
  `rd : List Char → Option (K × List Char)` (value read and rest of the stream, or failure).
-/

namespace Smf

/-! ## Shared data types and machine arithmetic -/

/-- A `glm::vec3` over the scalar type `K`. -/
structure Vec3 (K : Type) where
  x : K
  y : K
  z : K
deriving DecidableEq

/-- A `glm::ivec3`: three `int` components. -/
structure IVec3 where
  x : Int
  y : Int
  z : Int
deriving DecidableEq

/-- Result of an `int` operation reduced to the 32-bit two's-complement range. -/
def wrapInt32 (v : Int) : Int := (v + 2147483648) % 4294967296 - 2147483648

/-- The conversion `(size_t)i` of an `int` (64-bit `size_t`). -/
def toSizeT (v : Int) : Nat := (v % 18446744073709551616).toNat

/-- The conversion `(unsigned int)i` of an `int`. -/
def toUInt (v : Int) : Nat := (v % 4294967296).toNat

/-- The C locale's `isspace`: the characters skipped by formatted stream extraction. -/
def isspace (c : Char) : Bool :=
  c == ' ' || c == '\t' || c == '\n' || c == '\x0b' || c == '\x0c' || c == '\r'

/-- Value of a run of decimal digits. -/
def digitsValue (ds : List Char) : Nat :=
  ds.foldl (fun n c => 10 * n + (c.toNat - 48)) 0

/-- Extraction `ss >> word` of a `std::string`: leading whitespace is skipped, the word runs up to
the next whitespace; the pair is the word (empty when the extraction fails) and the rest. -/
def extractWord (s : List Char) : List Char × List Char :=
  let s1 := s.dropWhile isspace
  (s1.takeWhile (fun c => !isspace c), s1.dropWhile (fun c => !isspace c))

/-- Worker of `extractWords`: `cur` is the word being read. -/
def extractWordsAux : List Char → List Char → List (List Char)
  | [], cur => if cur.isEmpty then [] else [cur]
  | c :: cs, cur =>
    if isspace c then
      (if cur.isEmpty then extractWordsAux cs [] else cur :: extractWordsAux cs [])
    else extractWordsAux cs (cur ++ [c])

/-- The words that `while (ss >> token)` extracts, in order, from the rest of a stream. -/
def extractWords (s : List Char) : List (List Char) := extractWordsAux s []

/-! ## Vector arithmetic (glm) -/

section VecOps
variable {K : Type} [LinearOrderedField K]

instance : Zero (Vec3 K) := ⟨⟨0, 0, 0⟩⟩
instance : Add (Vec3 K) := ⟨fun a b => ⟨a.x + b.x, a.y + b.y, a.z + b.z⟩⟩
instance : Sub (Vec3 K) := ⟨fun a b => ⟨a.x - b.x, a.y - b.y, a.z - b.z⟩⟩

/-- Product `v * s` of a vector and a scalar. -/
def Vec3.scale (v : Vec3 K) (s : K) : Vec3 K := ⟨v.x * s, v.y * s, v.z * s⟩

/-- Quotient `v / s` of a vector and a scalar (`c /= s`). -/
def Vec3.divs (v : Vec3 K) (s : K) : Vec3 K := ⟨v.x / s, v.y / s, v.z / s⟩

/-- The function `glm::dot`. -/
def dot (a b : Vec3 K) : K := a.x * b.x + a.y * b.y + a.z * b.z

/-- The function `glm::cross`. -/
def cross (a b : Vec3 K) : Vec3 K :=
  ⟨a.y * b.z - b.y * a.z, a.z * b.x - b.z * a.x, a.x * b.y - b.x * a.y⟩

/-- The function `glm::length`: `sqrt(dot(v, v))`. -/
def length (sqrt : K → K) (v : Vec3 K) : K := sqrt (dot v v)

/-- The function `glm::normalize`: `v * inversesqrt(dot(v, v))`. -/
def normalize (sqrt : K → K) (v : Vec3 K) : Vec3 K := v.scale (1 / sqrt (dot v v))

/-- Three successive `float` extractions `ss >> p.x >> p.y >> p.z`. -/
def readVec3 (rd : List Char → Option (K × List Char)) (ss : List Char) : Option (Vec3 K) :=
  match rd ss with
  | none => none
  | some (x, s1) =>
    match rd s1 with
    | none => none
    | some (y, s2) =>
      match rd s2 with
      | none => none
      | some (z, _) => some ⟨x, y, z⟩

/-- A reader of plain decimal numerals (optional sign, digits, optional fraction), standing in for
the library's `float` extraction on such numerals; used to instantiate `rd` on concrete files. -/
def readDecimal (s : List Char) : Option (K × List Char) :=
  let s1 := s.dropWhile isspace
  let neg := s1.head? == some '-'
  let s2 := if s1.head? == some '-' || s1.head? == some '+' then s1.tail else s1
  let ip := s2.takeWhile Char.isDigit
  let s3 := s2.dropWhile Char.isDigit
  let fp := if s3.head? == some '.' then s3.tail.takeWhile Char.isDigit else []
  let s4 := if s3.head? == some '.' then s3.tail.dropWhile Char.isDigit else s3
  if ip.isEmpty && fp.isEmpty then none
  else
    let m : K := (digitsValue ip : K) + (digitsValue fp : K) / (10 : K) ^ fp.length
    some (if neg then -m else m, s4)

end VecOps

/-! ## GLFW constants (from `GLFW/glfw3.h`) -/

/-- Key state `GLFW_RELEASE`. -/
def GLFW_RELEASE : Nat := 0
/-- Key state `GLFW_PRESS`. -/
def GLFW_PRESS : Nat := 1
/-- Key state `GLFW_REPEAT`. -/
def GLFW_REPEAT : Nat := 2
/-- Key code `GLFW_KEY_1`. -/
def GLFW_KEY_1 : Nat := 49
/-- Key code `GLFW_KEY_2`. -/
def GLFW_KEY_2 : Nat := 50
/-- Key code `GLFW_KEY_3`. -/
def GLFW_KEY_3 : Nat := 51
/-- Key code `GLFW_KEY_A`. -/
def GLFW_KEY_A : Nat := 65
/-- Key code `GLFW_KEY_D`. -/
def GLFW_KEY_D : Nat := 68
/-- Key code `GLFW_KEY_E`. -/
def GLFW_KEY_E : Nat := 69
/-- Key code `GLFW_KEY_G`. -/
def GLFW_KEY_G : Nat := 71
/-- Key code `GLFW_KEY_I`. -/
def GLFW_KEY_I : Nat := 73
/-- Key code `GLFW_KEY_K`. -/
def GLFW_KEY_K : Nat := 75
/-- Key code `GLFW_KEY_O`. -/
def GLFW_KEY_O : Nat := 79
/-- Key code `GLFW_KEY_P`. -/
def GLFW_KEY_P : Nat := 80
/-- Key code `GLFW_KEY_Q`. -/
def GLFW_KEY_Q : Nat := 81
/-- Key code `GLFW_KEY_S`. -/
def GLFW_KEY_S : Nat := 83
/-- Key code `GLFW_KEY_U`. -/
def GLFW_KEY_U : Nat := 85
/-- Key code `GLFW_KEY_W`. -/
def GLFW_KEY_W : Nat := 87
/-- Key code `GLFW_KEY_ESCAPE`. -/
def GLFW_KEY_ESCAPE : Nat := 256
/-- Key code `GLFW_KEY_RIGHT`. -/
def GLFW_KEY_RIGHT : Nat := 262
/-- Key code `GLFW_KEY_LEFT`. -/
def GLFW_KEY_LEFT : Nat := 263

/-! ## Edge detection, as the specification words it -/

/-- Whether a key counts as held in a frame for `keyPressedOnce`: its sampled state is
`GLFW_PRESS` or `GLFW_REPEAT`. -/
def held (glfwGetKey : Nat → Nat) (key : Nat) : Bool :=
  decide (glfwGetKey key = GLFW_PRESS) || decide (glfwGetKey key = GLFW_REPEAT)

/-- Per frame, whether the key is held and was not held on the previous frame; `prev` is the
state before the first frame. -/
def edgeTrace : Bool → List Bool → List Bool
  | _, [] => []
  | prev, s :: rest => (s && !prev) :: edgeTrace s rest

/-- Number of released-to-held transitions in a run of samples; `prev` is the state before the
first frame. -/
def risingEdges (prev : Bool) (samples : List Bool) : Nat :=
  (edgeTrace prev samples).count true

end Smf

namespace SmfViewer
open Smf

/-! ## `smf_viewer.cpp` : the parser `load_smf` -/

/-- The character `line[first]` for `first = line.find_first_not_of(" \t\r\n")`, or `none` when
that search returns `npos`. -/
def firstNonBlank (line : List Char) : Option Char :=
  (line.dropWhile (fun c => c == ' ' || c == '\t' || c == '\r' || c == '\n')).head?

/-- The function `std::stoi(pri)`: optional whitespace, optional sign, decimal digits; `none` when
it throws (`invalid_argument` without digits, `out_of_range` outside the `int` range). -/
def stoi (s : List Char) : Option Int :=
  let s1 := s.dropWhile isspace
  let neg := s1.head? == some '-'
  let s2 := if s1.head? == some '-' || s1.head? == some '+' then s1.tail else s1
  let ds := s2.takeWhile Char.isDigit
  if ds.isEmpty then none
  else
    let v : Int := if neg then -(digitsValue ds : Int) else (digitsValue ds : Int)
    if v < -2147483648 ∨ 2147483647 < v then none else some v

/-- The part of a token before the first `/` (the whole token when there is none). -/
def primary (token : List Char) : List Char := token.takeWhile (fun c => c != '/')

/-- The value of `id` after `try { id = std::stoi(pri) - 1; } catch(...) { id = -1; }`. -/
def tokenIndex (token : List Char) : Int :=
  match stoi (primary token) with
  | some v => wrapInt32 (v - 1)
  | none => -1

/-- The token loop of an `f` line: `idxs` after the loop, given the tokens still to be read. A
token with `id < 0` clears `idxs` and leaves the loop. -/
def readIdxs : List (List Char) → List Int → List Int
  | [], idxs => idxs
  | token :: rest, idxs =>
    if tokenIndex token < 0 then [] else readIdxs rest (idxs ++ [tokenIndex token])

/-- The fan loop `for (k = 1; k + 1 < idxs.size(); ++k)`: the faces pushed, in order. -/
def fanFaces (idxs : List Int) : List IVec3 :=
  (List.range' 1 (idxs.length - 2)).map
    (fun k => ⟨idxs.getD 0 0, idxs.getD k 0, idxs.getD (k + 1) 0⟩)

/-- The faces an `f` line pushes, given the rest of the stream after the tag. -/
def faceLine (ss : List Char) : List IVec3 :=
  let idxs := readIdxs (extractWords ss) []
  if idxs.length < 3 then [] else fanFaces idxs

section Loader
variable {K : Type} [LinearOrderedField K]

/-- One iteration of the `while (std::getline(in, line))` loop on the pair
`(positions, faces)`. -/
def loadLine (rd : List Char → Option (K × List Char)) (st : List (Vec3 K) × List IVec3)
    (line : List Char) : List (Vec3 K) × List IVec3 :=
  match firstNonBlank line with
  | none => st
  | some c =>
    if c = '#' ∨ c = '$' then st
    else if (extractWord line).1 = ['v'] then
      match readVec3 rd (extractWord line).2 with
      | none => st
      | some p => (st.1 ++ [p], st.2)
    else if (extractWord line).1 = ['f'] then
      (st.1, st.2 ++ faceLine (extractWord line).2)
    else st

/-- The function `load_smf`: returned flag and the two output vectors. -/
def load_smf (rd : List Char → Option (K × List Char)) (file : Option (List (List Char)))
    (positions : List (Vec3 K)) (faces : List IVec3) : Bool × List (Vec3 K) × List IVec3 :=
  match file with
  | none => (false, positions, faces)
  | some lines =>
    let st := lines.foldl (loadLine rd) (positions, faces)
    (!st.1.isEmpty && !st.2.isEmpty, st.1, st.2)

end Loader

/-! ## `smf_viewer.cpp` : the mesh builder `build_mesh_from_smf` -/

/-- The render-ready `Vertex` of `smf_viewer.cpp`. -/
structure Vertex (K : Type) where
  Position : Vec3 K
  Normal : Vec3 K
deriving DecidableEq

/-- The file-scope variables written by `build_mesh_from_smf`. -/
structure Globals (K : Type) where
  vertices : List (Vertex K)
  indices : List Nat
  modelCentroid : Vec3 K
  modelScale : K
deriving DecidableEq

section Builder
variable {K : Type} [LinearOrderedField K]

/-- The guard `(size_t)f.x >= n || (size_t)f.y >= n || (size_t)f.z >= n` that skips a face. -/
def outOfRange (n : Nat) (f : IVec3) : Bool :=
  decide (n ≤ toSizeT f.x) || decide (n ≤ toSizeT f.y) || decide (n ≤ toSizeT f.z)

/-- The update `normals[i] += fn`. -/
def addAt (normals : List (Vec3 K)) (i : Nat) (fn : Vec3 K) : List (Vec3 K) :=
  normals.set i (normals.getD i 0 + fn)

/-- The vector `fn` that a face adds to the normal sums of its three vertices. -/
def faceNormal (sqrt : K → K) (positions : List (Vec3 K)) (f : IVec3) : Vec3 K :=
  let v0 := positions.getD (toSizeT f.y) 0 - positions.getD (toSizeT f.x) 0
  let v1 := positions.getD (toSizeT f.z) 0 - positions.getD (toSizeT f.x) 0
  let fn := cross v0 v1
  if length sqrt fn > 1 / 100000000 then normalize sqrt fn else fn

/-- One iteration of the normal accumulation loop over `faces`. -/
def accumulate (sqrt : K → K) (positions : List (Vec3 K)) (normals : List (Vec3 K))
    (f : IVec3) : List (Vec3 K) :=
  if outOfRange positions.length f then normals
  else
    let fn := faceNormal sqrt positions f
    addAt (addAt (addAt normals (toSizeT f.x) fn) (toSizeT f.y) fn) (toSizeT f.z) fn

/-- The running normal sums after the accumulation loop. -/
def accumulatedNormals (sqrt : K → K) (positions : List (Vec3 K)) (faces : List IVec3) :
    List (Vec3 K) :=
  faces.foldl (accumulate sqrt positions) (List.replicate positions.length 0)

/-- The vertex stored at index `i` by the vertex loop. -/
def makeVertex (sqrt : K → K) (positions normals : List (Vec3 K)) (i : Nat) : Vertex K :=
  let n := normals.getD i 0
  { Position := positions.getD i 0,
    Normal := if length sqrt n > 1 / 100000000 then normalize sqrt n else ⟨0, 0, 1⟩ }

/-- One iteration of the index loop: a face within range pushes its three indices. -/
def pushIndices (n : Nat) (indices : List Nat) (f : IVec3) : List Nat :=
  if outOfRange n f then indices else indices ++ [toUInt f.x, toUInt f.y, toUInt f.z]

/-- The centroid `c` of the positions. -/
def centroid (positions : List (Vec3 K)) : Vec3 K :=
  (positions.foldl (fun c p => c + p) 0).divs (positions.length : K)

/-- The bounding radius `maxd` before the epsilon substitution. -/
def boundingRadius (sqrt : K → K) (positions : List (Vec3 K)) (c : Vec3 K) : K :=
  positions.foldl (fun maxd p => max maxd (length sqrt (p - c))) 0

/-- The function `build_mesh_from_smf`: returned flag and the file-scope variables afterwards. -/
def build_mesh_from_smf (sqrt : K → K) (rd : List Char → Option (K × List Char))
    (file : Option (List (List Char))) (g : Globals K) : Bool × Globals K :=
  let r := load_smf rd file [] []
  if !r.1 then (false, g)
  else
    let positions := r.2.1
    let faces := r.2.2
    let c := centroid positions
    let maxd := boundingRadius sqrt positions c
    let maxd := if maxd ≤ 1 / 100000 then 1 else maxd
    let normals := accumulatedNormals sqrt positions faces
    let vertices := (List.range positions.length).map (makeVertex sqrt positions normals)
    let indices := faces.foldl (pushIndices vertices.length) []
    (!vertices.isEmpty && !indices.isEmpty,
      { vertices := vertices, indices := indices, modelCentroid := c, modelScale := 1 / maxd })

/-- The file-scope variables at program start. -/
def initialGlobals : Globals K :=
  { vertices := [], indices := [], modelCentroid := ⟨0, 0, 0⟩, modelScale := 1 }

end Builder

/-! ## `smf_viewer.cpp` : the input rig `processInput` -/

/-- The camera variables of `smf_viewer.cpp`, the function-local static `pWasPressed` and the
window's close flag. -/
structure Rig (K : Type) where
  cameraAngle : K
  cameraRadius : K
  cameraHeight : K
  perspectiveProj : Bool
  pWasPressed : Bool
  shouldClose : Bool
deriving DecidableEq

section Input
variable {K : Type} [LinearOrderedField K]

/-- The rig at program start. -/
def initialRig : Rig K :=
  { cameraAngle := 0, cameraRadius := 3, cameraHeight := 0, perspectiveProj := true,
    pWasPressed := false, shouldClose := false }

/-- The function `processInput`, one call per frame; `glfwGetKey` gives the sampled state of
each key code in that frame. -/
def processInput (r : Rig K) (glfwGetKey : Nat → Nat) : Rig K :=
  let r := if glfwGetKey GLFW_KEY_A = GLFW_PRESS then
    { r with cameraAngle := r.cameraAngle - 2 / 100 } else r
  let r := if glfwGetKey GLFW_KEY_D = GLFW_PRESS then
    { r with cameraAngle := r.cameraAngle + 2 / 100 } else r
  let r := if glfwGetKey GLFW_KEY_W = GLFW_PRESS then
    { r with cameraRadius := max (5 / 100) (r.cameraRadius - 5 / 100) } else r
  let r := if glfwGetKey GLFW_KEY_S = GLFW_PRESS then
    { r with cameraRadius := r.cameraRadius + 5 / 100 } else r
  let r := if glfwGetKey GLFW_KEY_Q = GLFW_PRESS then
    { r with cameraHeight := r.cameraHeight + 3 / 100 } else r
  let r := if glfwGetKey GLFW_KEY_E = GLFW_PRESS then
    { r with cameraHeight := r.cameraHeight - 3 / 100 } else r
  let r :=
    if glfwGetKey GLFW_KEY_P = GLFW_PRESS then
      { (if !r.pWasPressed then { r with perspectiveProj := !r.perspectiveProj } else r) with
        pWasPressed := true }
    else { r with pWasPressed := false }
  if glfwGetKey GLFW_KEY_ESCAPE = GLFW_PRESS then { r with shouldClose := true } else r

/-- The rig after the `processInput` calls of a run of frames. -/
def runFrames (r : Rig K) (frames : List (Nat → Nat)) : Rig K :=
  frames.foldl processInput r

end Input

/-! ## Auxiliary predicates and sample files for `smf_viewer.cpp` -/

/-- An index that is non-negative and fits an `int`. -/
def validIndex (i : Int) : Prop := 0 ≤ i ∧ i < 2147483648

/-- A face whose three components are valid indices. -/
def validFace (f : IVec3) : Prop := validIndex f.x ∧ validIndex f.y ∧ validIndex f.z

/-- A face all of whose three indices are below the number of positions `n`. -/
def inRange (n : Nat) (f : IVec3) : Bool :=
  decide (f.x < (n : Int)) && decide (f.y < (n : Int)) && decide (f.z < (n : Int))

/-- The integer prefix of an index token, as the specification words it: the integer written at
the start of the part before the first `/` (optional whitespace, optional sign, decimal digits),
of any size; `none` when that part starts with no digits. -/
def integerPrefix (token : List Char) : Option Int :=
  let s1 := (primary token).dropWhile isspace
  let neg := s1.head? == some '-'
  let s2 := if s1.head? == some '-' || s1.head? == some '+' then s1.tail else s1
  let ds := s2.takeWhile Char.isDigit
  if ds.isEmpty then none
  else some (if neg then -(digitsValue ds : Int) else (digitsValue ds : Int))

/-- A record that `load_smf` skips: a blank line, a comment line, a `v` line with fewer than three
parseable numbers, or an `f` line with fewer than three indices or with an invalid index. -/
def skippedRecord {K : Type} (rd : List Char → Option (K × List Char)) (line : List Char) : Prop :=
  (∀ c ∈ line, isspace c = true) ∨
  (firstNonBlank line = some '#' ∨ firstNonBlank line = some '$') ∨
  ((extractWord line).1 = ['v'] ∧ readVec3 rd (extractWord line).2 = none) ∨
  ((extractWord line).1 = ['f'] ∧
    ((extractWords (extractWord line).2).length < 3 ∨
      ∃ t ∈ extractWords (extractWord line).2, tokenIndex t < 0))

/-- The four-line file `v 0 0 0`, `v 1 0 0`, `v 0 1 0`, `f 1 2 3`. -/
def triangleFile : List (List Char) :=
  [['v', ' ', '0', ' ', '0', ' ', '0'], ['v', ' ', '1', ' ', '0', ' ', '0'],
   ['v', ' ', '0', ' ', '1', ' ', '0'], ['f', ' ', '1', ' ', '2', ' ', '3']]

/-- The five-line file `v 0 0 0`, `v 1 0 0`, `v 0 1 0`, `v 5 5 5`, `f 1 2 3`: its fourth vertex
belongs to no face. -/
def isolatedVertexFile : List (List Char) :=
  [['v', ' ', '0', ' ', '0', ' ', '0'], ['v', ' ', '1', ' ', '0', ' ', '0'],
   ['v', ' ', '0', ' ', '1', ' ', '0'], ['v', ' ', '5', ' ', '5', ' ', '5'],
   ['f', ' ', '1', ' ', '2', ' ', '3']]

/-! ## `smf_viewer.cpp` : the draw-time model transform of `main`, and the face vectors as the
specification words them -/

/-- The transform `modelBase = modelScaleM * modelTranslate` of `main` applied to a point:
translation by `-modelCentroid`, then scaling by `modelScale`. -/
def modelBase {K : Type} [LinearOrderedField K] (g : Globals K) (p : Vec3 K) : Vec3 K :=
  (p - g.modelCentroid).scale g.modelScale

/-- The unnormalized cross product of the two edge vectors from a face's first vertex. -/
def edgeCross {K : Type} [LinearOrderedField K] (positions : List (Vec3 K)) (f : IVec3) :
    Vec3 K :=
  cross (positions.getD (toSizeT f.y) 0 - positions.getD (toSizeT f.x) 0)
    (positions.getD (toSizeT f.z) 0 - positions.getD (toSizeT f.x) 0)

/-- Whether vertex `i` is one of the three corners of the face. -/
def incident (i : Nat) (f : IVec3) : Bool :=
  decide (toSizeT f.x = i) || decide (toSizeT f.y = i) || decide (toSizeT f.z = i)

/-- Sum, over the faces within range that have vertex `i` as a corner, of the per-face vector
`fv`, in face order. -/
def incidentSum {K : Type} [LinearOrderedField K] (fv : IVec3 → Vec3 K) (n i : Nat)
    (faces : List IVec3) : Vec3 K :=
  faces.foldl (fun s f => if !outOfRange n f && incident i f then s + fv f else s) 0

/-- The one-line file `v 1 0 0`: a position and no face. -/
def positionsOnlyFile : List (List Char) :=
  [['v', ' ', '1', ' ', '0', ' ', '0']]

end SmfViewer

namespace ShadingDemo
open Smf

/-! ## `shading_demo.cpp` : the parser `loadSMF` -/

/-- Extraction `ss >> type` of a `char`: the first non-whitespace character and the rest, or
`none` when the stream holds none. -/
def extractChar (s : List Char) : Option (Char × List Char) :=
  match s.dropWhile isspace with
  | [] => none
  | c :: rest => some (c, rest)

/-- Extraction `ss >> i` of an `int`: optional whitespace, optional sign, decimal digits; it fails
without digits and for a value outside the `int` range. -/
def readInt (s : List Char) : Option (Int × List Char) :=
  let s1 := s.dropWhile isspace
  let neg := s1.head? == some '-'
  let s2 := if s1.head? == some '-' || s1.head? == some '+' then s1.tail else s1
  let ds := s2.takeWhile Char.isDigit
  if ds.isEmpty then none
  else
    let v : Int := if neg then -(digitsValue ds : Int) else (digitsValue ds : Int)
    if v < -2147483648 ∨ 2147483647 < v then none else some (v, s2.dropWhile Char.isDigit)

/-- Three successive `int` extractions `ss >> f.x >> f.y >> f.z`. -/
def readIVec3 (ss : List Char) : Option IVec3 :=
  match readInt ss with
  | none => none
  | some (x, s1) =>
    match readInt s1 with
    | none => none
    | some (y, s2) =>
      match readInt s2 with
      | none => none
      | some (z, _) => some ⟨x, y, z⟩

section Loader
variable {K : Type} [LinearOrderedField K]

/-- One iteration of the `while (std::getline(in, line))` loop on the pair `(positions, faces)`.
When `ss >> type` fails the stream is in a failed state, so whichever branch is taken its
extraction fails and nothing is pushed. -/
def loadLine (rd : List Char → Option (K × List Char)) (st : List (Vec3 K) × List IVec3)
    (line : List Char) : List (Vec3 K) × List IVec3 :=
  if line.isEmpty ∨ line.head? = some '#' then st
  else
    match extractChar line with
    | none => st
    | some (type, ss) =>
      if type = 'v' then
        match readVec3 rd ss with
        | none => st
        | some p => (st.1 ++ [p], st.2)
      else if type = 'f' then
        match readIVec3 ss with
        | none => st
        | some f0 =>
          let f : IVec3 := ⟨wrapInt32 (f0.x - 1), wrapInt32 (f0.y - 1), wrapInt32 (f0.z - 1)⟩
          if f.x < 0 ∨ f.y < 0 ∨ f.z < 0 then st else (st.1, st.2 ++ [f])
      else st

/-- The function `loadSMF`: returned flag and the two output vectors. -/
def loadSMF (rd : List Char → Option (K × List Char)) (file : Option (List (List Char)))
    (positions : List (Vec3 K)) (faces : List IVec3) : Bool × List (Vec3 K) × List IVec3 :=
  match file with
  | none => (false, positions, faces)
  | some lines =>
    let st := lines.foldl (loadLine rd) (positions, faces)
    (!st.1.isEmpty && !st.2.isEmpty, st.1, st.2)

end Loader

/-! ## `shading_demo.cpp` : the mesh builder `buildMeshFromSMF` -/

/-- The render-ready `Vertex` of `shading_demo.cpp`. -/
structure Vertex (K : Type) where
  pos : Vec3 K
  normal : Vec3 K
deriving DecidableEq

/-- The file-scope vectors written by `buildMeshFromSMF`. -/
structure Globals (K : Type) where
  g_vertices : List (Vertex K)
  g_indices : List Nat
deriving DecidableEq

section Builder
variable {K : Type} [LinearOrderedField K]

/-- The guard `(size_t)f.x >= n || (size_t)f.y >= n || (size_t)f.z >= n` of the normal loop. -/
def outOfRange (n : Nat) (f : IVec3) : Bool :=
  decide (n ≤ toSizeT f.x) || decide (n ≤ toSizeT f.y) || decide (n ≤ toSizeT f.z)

/-- The update `normals[i] += fn`. -/
def addAt (normals : List (Vec3 K)) (i : Nat) (fn : Vec3 K) : List (Vec3 K) :=
  normals.set i (normals.getD i 0 + fn)

/-- One iteration of the normal loop; the face normal is `glm::normalize(glm::cross(v1, v2))`
whatever its length. In the field `K` a zero cross product normalizes to the zero vector, where
IEEE arithmetic produces NaN components. -/
def accumulate (sqrt : K → K) (pos : List (Vec3 K)) (normals : List (Vec3 K))
    (f : IVec3) : List (Vec3 K) :=
  if outOfRange pos.length f then normals
  else
    let v1 := pos.getD (toSizeT f.y) 0 - pos.getD (toSizeT f.x) 0
    let v2 := pos.getD (toSizeT f.z) 0 - pos.getD (toSizeT f.x) 0
    let fn := normalize sqrt (cross v1 v2)
    addAt (addAt (addAt normals (toSizeT f.x) fn) (toSizeT f.y) fn) (toSizeT f.z) fn

/-- The function `buildMeshFromSMF` up to its calls into the graphics API: returned flag and the
file-scope vectors afterwards. The index loop pushes the indices of every face. -/
def buildMeshFromSMF (sqrt : K → K) (rd : List Char → Option (K × List Char))
    (file : Option (List (List Char))) (g : Globals K) : Bool × Globals K :=
  let r := loadSMF rd file [] []
  if !r.1 then (false, g)
  else if r.2.2.length < 1 then (false, g)
  else
    let pos := r.2.1
    let faces := r.2.2
    let normals := faces.foldl (accumulate sqrt pos) (List.replicate pos.length 0)
    let g_vertices := (List.range pos.length).map
      (fun i => ({ pos := pos.getD i 0, normal := normalize sqrt (normals.getD i 0) } : Vertex K))
    let g_indices := faces.foldl (fun idx f => idx ++ [toUInt f.x, toUInt f.y, toUInt f.z]) []
    (true, { g_vertices := g_vertices, g_indices := g_indices })

/-- The file-scope vectors at program start. -/
def initialGlobals : Globals K := { g_vertices := [], g_indices := [] }

end Builder

/-! ## `shading_demo.cpp` : input handling -/

/-- The camera, light and mode variables of `shading_demo.cpp`, the table `prevKeys` and the
window's close flag. -/
structure Rig (K : Type) where
  camAngle : K
  camRadius : K
  camHeight : K
  lightAngle : K
  lightRadius : K
  lightHeight : K
  g_usePhong : Bool
  g_perspective : Bool
  g_materialIndex : Nat
  prevKeys : Nat → Bool
  shouldClose : Bool

/-- The function `keyPressedOnce` on the table `prevKeys`: returned flag and the table
afterwards. -/
def keyPressedOnce (prevKeys : Nat → Bool) (glfwGetKey : Nat → Nat) (key : Nat) :
    Bool × (Nat → Bool) :=
  let state := glfwGetKey key
  let pressed := decide (state = GLFW_PRESS) || decide (state = GLFW_REPEAT)
  if pressed && !prevKeys key then (true, Function.update prevKeys key true)
  else if !pressed then (false, Function.update prevKeys key false)
  else (false, prevKeys)

section Input
variable {K : Type} [LinearOrderedField K]

/-- The rig when the main loop is entered (`prevKeys` cleared). -/
def initialRig : Rig K :=
  { camAngle := 0, camRadius := 35 / 10, camHeight := 0,
    lightAngle := 0, lightRadius := 2, lightHeight := 5 / 10,
    g_usePhong := true, g_perspective := true, g_materialIndex := 0,
    prevKeys := fun _ => false, shouldClose := false }

/-- The function `processContinuousInput`, one call per frame. -/
def processContinuousInput (r : Rig K) (glfwGetKey : Nat → Nat) : Rig K :=
  let r := if glfwGetKey GLFW_KEY_A = GLFW_PRESS then
    { r with camAngle := r.camAngle - 2 / 100 } else r
  let r := if glfwGetKey GLFW_KEY_D = GLFW_PRESS then
    { r with camAngle := r.camAngle + 2 / 100 } else r
  let r := if glfwGetKey GLFW_KEY_W = GLFW_PRESS then
    (let c := r.camRadius - 4 / 100
     { r with camRadius := if c < 2 / 10 then 2 / 10 else c }) else r
  let r := if glfwGetKey GLFW_KEY_S = GLFW_PRESS then
    { r with camRadius := r.camRadius + 4 / 100 } else r
  let r := if glfwGetKey GLFW_KEY_LEFT = GLFW_PRESS then
    { r with lightAngle := r.lightAngle - 2 / 100 } else r
  let r := if glfwGetKey GLFW_KEY_RIGHT = GLFW_PRESS then
    { r with lightAngle := r.lightAngle + 2 / 100 } else r
  let r := if glfwGetKey GLFW_KEY_I = GLFW_PRESS then
    { r with lightRadius := r.lightRadius - 4 / 100 } else r
  let r := if glfwGetKey GLFW_KEY_K = GLFW_PRESS then
    { r with lightRadius := r.lightRadius + 4 / 100 } else r
  let r := if glfwGetKey GLFW_KEY_U = GLFW_PRESS then
    { r with lightHeight := r.lightHeight + 4 / 100 } else r
  if glfwGetKey GLFW_KEY_O = GLFW_PRESS then
    { r with lightHeight := r.lightHeight - 4 / 100 } else r

/-- One call of `keyPressedOnce` in the main loop, followed by `action` when it returns true. -/
def onKeyPressedOnce (r : Rig K) (glfwGetKey : Nat → Nat) (key : Nat)
    (action : Rig K → Rig K) : Rig K :=
  let res := keyPressedOnce r.prevKeys glfwGetKey key
  let r := { r with prevKeys := res.2 }
  if res.1 then action r else r

/-- The input part of one iteration of the main loop of `main`. -/
def mainLoopInput (r : Rig K) (glfwGetKey : Nat → Nat) : Rig K :=
  let r := processContinuousInput r glfwGetKey
  let r := onKeyPressedOnce r glfwGetKey GLFW_KEY_G
    (fun r => { r with g_usePhong := !r.g_usePhong })
  let r := onKeyPressedOnce r glfwGetKey GLFW_KEY_P
    (fun r => { r with g_perspective := !r.g_perspective })
  let r := onKeyPressedOnce r glfwGetKey GLFW_KEY_1 (fun r => { r with g_materialIndex := 0 })
  let r := onKeyPressedOnce r glfwGetKey GLFW_KEY_2 (fun r => { r with g_materialIndex := 1 })
  let r := onKeyPressedOnce r glfwGetKey GLFW_KEY_3 (fun r => { r with g_materialIndex := 2 })
  onKeyPressedOnce r glfwGetKey GLFW_KEY_ESCAPE (fun r => { r with shouldClose := true })

/-- The rig after the input handling of a run of frames. -/
def runFrames (r : Rig K) (frames : List (Nat → Nat)) : Rig K :=
  frames.foldl mainLoopInput r

end Input

/-! ## Auxiliary definitions and sample files for `shading_demo.cpp` -/

/-- The values returned by `keyPressedOnce` for one key, called once per frame. -/
def pressTrace (key : Nat) : (Nat → Bool) → List (Nat → Nat) → List Bool
  | _, [] => []
  | prevKeys, g :: rest =>
    (keyPressedOnce prevKeys g key).1 :: pressTrace key (keyPressedOnce prevKeys g key).2 rest

/-- The part of the rig that edge-triggered toggles read and write. -/
def modes {K : Type} (r : Rig K) : (Nat → Bool) × Bool × Bool :=
  (r.prevKeys, r.g_usePhong, r.g_perspective)

/-- The five-line file `v 0 0 0`, `v 1 0 0`, `v 0 1 0`, `f 1 2 3`, `f 1 2 99`: its last face
references a position that does not exist. -/
def outOfRangeFaceFile : List (List Char) :=
  [['v', ' ', '0', ' ', '0', ' ', '0'], ['v', ' ', '1', ' ', '0', ' ', '0'],
   ['v', ' ', '0', ' ', '1', ' ', '0'], ['f', ' ', '1', ' ', '2', ' ', '3'],
   ['f', ' ', '1', ' ', '2', ' ', '9', '9']]

/-- The five-line file `v 0 0 0`, `v 1 0 0`, `v 0 1 0`, `v 5 5 5`, `f 1 2 3`: its fourth vertex
belongs to no face. -/
def isolatedVertexInput : List (List Char) :=
  [['v', ' ', '0', ' ', '0', ' ', '0'], ['v', ' ', '1', ' ', '0', ' ', '0'],
   ['v', ' ', '0', ' ', '1', ' ', '0'], ['v', ' ', '5', ' ', '5', ' ', '5'],
   ['f', ' ', '1', ' ', '2', ' ', '3']]

end ShadingDemo

/-! # Theorems -/

namespace SmfViewer
open Smf

/-! ## The parser `load_smf` -/

theorem wrapInt32_range (v : Int) : -2147483648 ≤ wrapInt32 v ∧ wrapInt32 v < 2147483648 := by
  unfold wrapInt32; omega

theorem wrapInt32_of_range (v : Int) (h1 : -2147483648 ≤ v) (h2 : v < 2147483648) :
    wrapInt32 v = v := by
  unfold wrapInt32; omega

theorem stoi_range {s : List Char} {v : Int} (h : stoi s = some v) :
    -2147483648 ≤ v ∧ v ≤ 2147483647 := by
  unfold stoi at h
  simp only at h
  split_ifs at h
  all_goals (simp only [Option.some.injEq] at h; omega)

theorem tokenIndex_lt (t : List Char) : tokenIndex t < 2147483648 := by
  unfold tokenIndex
  split
  · exact (wrapInt32_range _).2
  · omega

theorem readIdxs_valid (toks : List (List Char)) :
    ∀ acc : List Int, (∀ x ∈ acc, validIndex x) → ∀ x ∈ readIdxs toks acc, validIndex x := by
  induction toks with
  | nil => intro acc h; simpa [readIdxs] using h
  | cons t rest ih =>
    intro acc h
    unfold readIdxs
    split_ifs with hneg
    · intro x hx; simp at hx
    · apply ih
      intro x hx
      rcases List.mem_append.1 hx with hx | hx
      · exact h x hx
      · simp only [List.mem_singleton] at hx
        subst hx
        exact ⟨by omega, tokenIndex_lt t⟩

theorem getD_valid (idxs : List Int) (h : ∀ x ∈ idxs, validIndex x) (k : Nat) :
    validIndex (idxs.getD k 0) := by
  by_cases hk : k < idxs.length
  · rw [List.getD_eq_getElem _ _ hk]
    exact h _ (List.getElem_mem _)
  · rw [List.getD_eq_default _ _ (by omega)]
    exact ⟨le_refl _, by norm_num⟩

theorem fanFaces_valid (idxs : List Int) (h : ∀ x ∈ idxs, validIndex x) :
    ∀ f ∈ fanFaces idxs, validFace f := by
  intro f hf
  unfold fanFaces at hf
  obtain ⟨k, -, rfl⟩ := List.mem_map.1 hf
  exact ⟨getD_valid idxs h 0, getD_valid idxs h k, getD_valid idxs h (k + 1)⟩

theorem faceLine_valid (ss : List Char) : ∀ f ∈ faceLine ss, validFace f := by
  intro f hf
  unfold faceLine at hf
  simp only at hf
  split_ifs at hf with h
  · simp at hf
  · exact fanFaces_valid _ (readIdxs_valid _ [] (by simp)) f hf

section
variable {K : Type}

theorem loadLine_append (rd : List Char → Option (K × List Char))
    (st : List (Vec3 K) × List IVec3) (line : List Char) :
    loadLine rd st line =
      (st.1 ++ (loadLine rd ([], []) line).1, st.2 ++ (loadLine rd ([], []) line).2) := by
  unfold loadLine
  cases firstNonBlank line with
  | none => simp
  | some c =>
    simp only
    split_ifs
    · simp
    · cases readVec3 rd (extractWord line).2 <;> simp
    · simp
    · simp

theorem foldl_loadLine (rd : List Char → Option (K × List Char)) (lines : List (List Char)) :
    ∀ st : List (Vec3 K) × List IVec3,
      lines.foldl (loadLine rd) st =
        (st.1 ++ lines.flatMap (fun l => (loadLine rd ([], []) l).1),
         st.2 ++ lines.flatMap (fun l => (loadLine rd ([], []) l).2)) := by
  induction lines with
  | nil => intro st; simp
  | cons l rest ih =>
    intro st
    rw [List.foldl_cons, ih, loadLine_append rd st l]
    simp [List.append_assoc]

theorem loadLine_faces_valid (rd : List Char → Option (K × List Char)) (line : List Char) :
    ∀ f ∈ (loadLine rd ([], []) line).2, validFace f := by
  intro f hf
  unfold loadLine at hf
  cases hc : firstNonBlank line with
  | none => simp [hc] at hf
  | some c =>
    simp only [hc] at hf
    split_ifs at hf
    · simp at hf
    · cases hr : readVec3 rd (extractWord line).2 <;> simp [hr] at hf
    · simp only [List.nil_append] at hf
      exact faceLine_valid _ f hf
    · simp at hf

theorem load_smf_faces_valid (rd : List Char → Option (K × List Char))
    (file : Option (List (List Char))) :
    ∀ f ∈ (load_smf rd file [] []).2.2, validFace f := by
  intro f hf
  cases file with
  | none => simp [load_smf] at hf
  | some lines =>
    simp only [load_smf, foldl_loadLine, List.nil_append] at hf
    obtain ⟨l, -, hl⟩ := List.mem_flatMap.1 hf
    exact loadLine_faces_valid rd l f hl

end

theorem readIdxs_all_good (toks : List (List Char)) :
    ∀ acc : List Int, (∀ t ∈ toks, 0 ≤ tokenIndex t) →
      readIdxs toks acc = acc ++ toks.map tokenIndex := by
  induction toks with
  | nil => intro acc _; simp [readIdxs]
  | cons t rest ih =>
    intro acc h
    have ht : ¬ tokenIndex t < 0 := not_lt.2 (h t (List.mem_cons_self _ _))
    unfold readIdxs
    rw [if_neg ht, ih _ (fun u hu => h u (List.mem_cons_of_mem _ hu))]
    simp

theorem readIdxs_bad (toks : List (List Char)) :
    ∀ acc : List Int, (∃ t ∈ toks, tokenIndex t < 0) → readIdxs toks acc = [] := by
  induction toks with
  | nil => intro acc h; obtain ⟨t, ht, -⟩ := h; simp at ht
  | cons t rest ih =>
    intro acc h
    unfold readIdxs
    split_ifs with hneg
    · rfl
    · apply ih
      obtain ⟨u, hu, hlt⟩ := h
      rcases List.mem_cons.1 hu with rfl | hu
      · exact absurd hlt hneg
      · exact ⟨u, hu, hlt⟩

theorem readIdxs_length_le (toks : List (List Char)) :
    ∀ acc : List Int, (readIdxs toks acc).length ≤ acc.length + toks.length := by
  induction toks with
  | nil => intro acc; simp [readIdxs]
  | cons t rest ih =>
    intro acc
    unfold readIdxs
    split_ifs
    · simp
    · have := ih (acc ++ [tokenIndex t])
      simp only [List.length_append, List.length_singleton, List.length_cons, List.length_nil] at this ⊢
      omega

theorem tokenIndex_neg_iff (t : List Char) :
    tokenIndex t < 0 ↔
      stoi (primary t) = none ∨
        ∃ v, stoi (primary t) = some v ∧ v ≤ 0 ∧ v ≠ -2147483648 := by
  unfold tokenIndex
  cases h : stoi (primary t) with
  | none => simp
  | some v =>
    have hr := stoi_range h
    simp only [Option.some.injEq, exists_eq_left', false_or, reduceCtorEq]
    unfold wrapInt32
    omega

theorem firstNonBlank_of_head (c : Char) (hc : isspace c = false) :
    ∀ line : List Char, (line.dropWhile isspace).head? = some c →
      ∃ d, firstNonBlank line = some d ∧ (d = c ∨ isspace d = true) := by
  intro line
  induction line with
  | nil => intro h; simp at h
  | cons a rest ih =>
    intro h
    by_cases ha : isspace a = true
    · rw [List.dropWhile_cons, if_pos ha] at h
      obtain ⟨d, hd, hd2⟩ := ih h
      unfold firstNonBlank at hd ⊢
      rw [List.dropWhile_cons]
      split_ifs
      · exact ⟨d, hd, hd2⟩
      · exact ⟨a, rfl, Or.inr ha⟩
    · rw [List.dropWhile_cons, if_neg ha] at h
      simp only [List.head?_cons, Option.some.injEq] at h
      subst h
      refine ⟨a, ?_, Or.inl rfl⟩
      unfold firstNonBlank
      rw [List.dropWhile_cons, if_neg]
      · rfl
      · intro hb
        apply ha
        simp only [Bool.or_eq_true, beq_iff_eq] at hb
        unfold isspace
        rcases hb with ((hb | hb) | hb) | hb <;> subst hb <;> rfl

theorem head_of_tag (line : List Char) (c : Char) (h : (extractWord line).1 = [c]) :
    (line.dropWhile isspace).head? = some c ∧ isspace c = false := by
  unfold extractWord at h
  simp only at h
  cases hl : line.dropWhile isspace with
  | nil => rw [hl] at h; simp at h
  | cons a rest =>
    rw [hl, List.takeWhile_cons] at h
    split_ifs at h with ha
    · simp only [List.cons.injEq] at h
      rw [← h.1]
      exact ⟨rfl, by simpa using ha⟩

theorem not_comment_of_tag (line : List Char) (c : Char) (h : (extractWord line).1 = [c])
    (h1 : c ≠ '#') (h2 : c ≠ '$') :
    ∃ d, firstNonBlank line = some d ∧ ¬ (d = '#' ∨ d = '$') := by
  obtain ⟨hh, hs⟩ := head_of_tag line c h
  obtain ⟨d, hd, hd2⟩ := firstNonBlank_of_head c hs line hh
  refine ⟨d, hd, ?_⟩
  rcases hd2 with rfl | hsp
  · exact fun hx => hx.elim h1 h2
  · rintro (rfl | rfl) <;> exact absurd hsp (by decide)

theorem loadLine_f {K : Type} (rd : List Char → Option (K × List Char))
    (st : List (Vec3 K) × List IVec3) (line : List Char) (h : (extractWord line).1 = ['f']) :
    loadLine rd st line = (st.1, st.2 ++ faceLine (extractWord line).2) := by
  obtain ⟨d, hd, hnc⟩ := not_comment_of_tag line 'f' h (by decide) (by decide)
  unfold loadLine
  rw [hd]
  simp only
  rw [if_neg hnc, if_neg (by rw [h]; decide), if_pos h]

theorem loadLine_skipped {K : Type} (rd : List Char → Option (K × List Char))
    (st : List (Vec3 K) × List IVec3) (line : List Char) (h : skippedRecord rd line) :
    loadLine rd st line = st := by
  rcases h with hblank | hcomment | ⟨hv, hnone⟩ | ⟨hf, hbad⟩
  · have hdrop : line.dropWhile isspace = [] := by
      rw [List.dropWhile_eq_nil_iff]; exact hblank
    have htag : (extractWord line).1 = [] := by
      unfold extractWord; simp [hdrop]
    unfold loadLine
    cases firstNonBlank line with
    | none => rfl
    | some c =>
      simp only
      split_ifs with h1 h2 h3
      · rfl
      · rw [htag] at h2; simp at h2
      · rw [htag] at h3; simp at h3
      · rfl
  · unfold loadLine
    rcases hcomment with hc | hc <;> rw [hc] <;> simp
  · unfold loadLine
    cases firstNonBlank line with
    | none => rfl
    | some c =>
      simp only
      split_ifs with h1
      · rfl
      · rw [hnone]
  · rw [loadLine_f rd st line hf]
    have : faceLine (extractWord line).2 = [] := by
      unfold faceLine
      simp only
      rcases hbad with hshort | hbad
      · rw [if_pos]
        have := readIdxs_length_le (extractWords (extractWord line).2) []
        simp only [List.length_nil] at this
        omega
      · rw [readIdxs_bad _ _ hbad]; simp
    rw [this]; simp

theorem tokenIndex_of_stoi {t : List Char} {a : Int} (h : stoi (primary t) = some a)
    (ha : 1 ≤ a) : tokenIndex t = a - 1 := by
  have hr := stoi_range h
  unfold tokenIndex
  rw [h]
  exact wrapInt32_of_range _ (by omega) (by omega)

theorem map_tokenIndex_of_parse (toks : List (List Char)) :
    ∀ as : List Int, toks.map (fun t => stoi (primary t)) = as.map some →
      (∀ a ∈ as, 1 ≤ a) → toks.map tokenIndex = as.map (fun a => a - 1) := by
  induction toks with
  | nil =>
    intro as h _
    cases as with
    | nil => rfl
    | cons a rest => simp at h
  | cons t rest ih =>
    intro as h hpos
    cases as with
    | nil => simp at h
    | cons a as1 =>
      simp only [List.map_cons, List.cons.injEq] at h ⊢
      exact ⟨tokenIndex_of_stoi h.1 (hpos a (List.mem_cons_self _ _)),
        ih as1 h.2 (fun b hb => hpos b (List.mem_cons_of_mem _ hb))⟩

theorem getD_map_sub_one (as : List Int) (k : Nat) (hk : k < as.length) :
    (as.map (fun a => a - 1)).getD k 0 = as.getD k 0 - 1 := by
  rw [List.getD_eq_getElem _ _ (by simpa using hk), List.getD_eq_getElem _ _ hk]
  simp

theorem fanFaces_map_sub_one (as : List Int) :
    fanFaces (as.map (fun a => a - 1)) =
      (List.range (as.length - 2)).map
        (fun j => (⟨as.getD 0 0 - 1, as.getD (j + 1) 0 - 1, as.getD (j + 2) 0 - 1⟩ : IVec3)) := by
  unfold fanFaces
  rw [List.range'_eq_map_range, List.map_map, List.length_map]
  apply List.map_congr_left
  intro j hj
  have hj2 : j < as.length - 2 := List.mem_range.1 hj
  simp only [Function.comp_apply]
  rw [getD_map_sub_one as 0 (by omega), getD_map_sub_one as (1 + j) (by omega),
    getD_map_sub_one as (1 + j + 1) (by omega)]
  have e1 : 1 + j = j + 1 := by omega
  rw [e1]

/-- Fan triangulation in terms of `std::stoi`: when it returns a value of at least 1 on the
primary part of each of the n ≥ 3 tokens, the line appends the n − 2 fan faces. -/
theorem loadLine_fan_of_stoi {K : Type} (rd : List Char → Option (K × List Char))
    (st : List (Vec3 K) × List IVec3) (line : List Char) (as : List Int)
    (htag : (extractWord line).1 = ['f'])
    (hparse : (extractWords (extractWord line).2).map (fun t => stoi (primary t)) = as.map some)
    (hpos : ∀ a ∈ as, 1 ≤ a) (hn : 3 ≤ as.length) :
    loadLine rd st line =
      (st.1, st.2 ++ (List.range (as.length - 2)).map
        (fun j => (⟨as.getD 0 0 - 1, as.getD (j + 1) 0 - 1, as.getD (j + 2) 0 - 1⟩ : IVec3))) ∧
    ((loadLine rd st line).2.drop st.2.length).length = as.length - 2 := by
  have hmap := map_tokenIndex_of_parse _ as hparse hpos
  have hgood : ∀ t ∈ extractWords (extractWord line).2, 0 ≤ tokenIndex t := by
    intro t ht
    have : tokenIndex t ∈ (extractWords (extractWord line).2).map tokenIndex :=
      List.mem_map_of_mem _ ht
    rw [hmap] at this
    obtain ⟨a, ha, hat⟩ := List.mem_map.1 this
    have := hpos a ha
    omega
  have hidx : readIdxs (extractWords (extractWord line).2) [] = as.map (fun a => a - 1) := by
    rw [readIdxs_all_good _ _ hgood, hmap]; rfl
  have hface : faceLine (extractWord line).2 = (List.range (as.length - 2)).map
      (fun j => (⟨as.getD 0 0 - 1, as.getD (j + 1) 0 - 1, as.getD (j + 2) 0 - 1⟩ : IVec3)) := by
    unfold faceLine
    simp only
    rw [hidx, if_neg (by simp; omega), fanFaces_map_sub_one]
  have hline := loadLine_f rd st line htag
  rw [hface] at hline
  refine ⟨hline, ?_⟩
  rw [hline]
  simp

theorem stoi_eq_bind_integerPrefix (t : List Char) :
    stoi (primary t) = (integerPrefix t).bind
      (fun v => if v < -2147483648 ∨ 2147483647 < v then none else some v) := by
  unfold stoi integerPrefix
  simp only
  split_ifs <;> simp_all

theorem stoi_of_integerPrefix {t : List Char} {a : Int} (h : integerPrefix t = some a)
    (h1 : -2147483648 ≤ a) (h2 : a ≤ 2147483647) : stoi (primary t) = some a := by
  rw [stoi_eq_bind_integerPrefix, h]
  simp only [Option.some_bind]
  rw [if_neg (by omega)]

theorem map_stoi_of_integerPrefix (toks : List (List Char)) :
    ∀ as : List Int, toks.map integerPrefix = as.map some →
      (∀ a ∈ as, 1 ≤ a ∧ a ≤ 2147483647) →
      toks.map (fun t => stoi (primary t)) = as.map some := by
  induction toks with
  | nil =>
    intro as h _
    cases as with
    | nil => rfl
    | cons a rest => simp at h
  | cons t rest ih =>
    intro as h hr
    cases as with
    | nil => simp at h
    | cons a as1 =>
      simp only [List.map_cons, List.cons.injEq] at h ⊢
      have ha := hr a (List.mem_cons_self _ _)
      exact ⟨stoi_of_integerPrefix h.1 (by omega) ha.2,
        ih as1 h.2 (fun b hb => hr b (List.mem_cons_of_mem _ hb))⟩

/-- C4 (counterexample). The line `f 2147483648 1 2` lists three index tokens whose integer
prefixes 2147483648, 1, 2 are all at least 1, yet `load_smf` appends no face for it: `std::stoi`
throws on the first token, which is beyond the `int` range. -/
theorem load_smf_face_line_beyond_int_range :
    (extractWord ['f', ' ', '2', '1', '4', '7', '4', '8', '3', '6', '4', '8', ' ', '1', ' ',
      '2']).1 = ['f'] ∧
    (extractWords (extractWord ['f', ' ', '2', '1', '4', '7', '4', '8', '3', '6', '4', '8', ' ',
      '1', ' ', '2']).2).map integerPrefix = [some 2147483648, some 1, some 2] ∧
    loadLine (readDecimal : List Char → Option (ℚ × List Char)) ([], [])
      ['f', ' ', '2', '1', '4', '7', '4', '8', '3', '6', '4', '8', ' ', '1', ' ', '2'] =
      ([], []) := by
  decide

/-- C4 (amended). An `f` line whose n ≥ 3 index tokens all have an integer prefix (the part
before any `/`) between 1 and 2147483647 appends exactly n − 2 faces, in order, the k-th being
`(a₁ − 1, a₍k+1₎ − 1, a₍k+2₎ − 1)`: a fan from the first listed index, converted to 0-based. -/
theorem load_smf_face_line_fan {K : Type} (rd : List Char → Option (K × List Char))
    (st : List (Vec3 K) × List IVec3) (line : List Char) (as : List Int)
    (htag : (extractWord line).1 = ['f'])
    (hparse : (extractWords (extractWord line).2).map integerPrefix = as.map some)
    (hrange : ∀ a ∈ as, 1 ≤ a ∧ a ≤ 2147483647) (hn : 3 ≤ as.length) :
    loadLine rd st line =
      (st.1, st.2 ++ (List.range (as.length - 2)).map
        (fun j => (⟨as.getD 0 0 - 1, as.getD (j + 1) 0 - 1, as.getD (j + 2) 0 - 1⟩ : IVec3))) ∧
    ((loadLine rd st line).2.drop st.2.length).length = as.length - 2 :=
  loadLine_fan_of_stoi rd st line as htag (map_stoi_of_integerPrefix _ as hparse hrange)
    (fun a ha => (hrange a ha).1) hn

theorem load_smf_face_line_fan_witness :
    loadLine (readDecimal : List Char → Option (ℚ × List Char)) ([], [⟨7, 8, 9⟩])
        ['f', ' ', '1', '/', '5', ' ', '2', ' ', '3', ' ', '4', ' ', '5'] =
      ([], [⟨7, 8, 9⟩, ⟨0, 1, 2⟩, ⟨0, 2, 3⟩, ⟨0, 3, 4⟩]) :=
  (load_smf_face_line_fan readDecimal ([], [⟨7, 8, 9⟩])
    ['f', ' ', '1', '/', '5', ' ', '2', ' ', '3', ' ', '4', ' ', '5'] [1, 2, 3, 4, 5]
    (by decide) (by decide) (by decide) (by decide)).1

/-- On an `f` line, one index token on which `std::stoi` throws, or whose converted 0-based index
`id` is negative, makes the whole line append no face, wherever the token stands. -/
theorem loadLine_bad_token {K : Type} (rd : List Char → Option (K × List Char))
    (st : List (Vec3 K) × List IVec3) (line : List Char)
    (htag : (extractWord line).1 = ['f'])
    (hbad : ∃ t ∈ extractWords (extractWord line).2,
      stoi (primary t) = none ∨ ∃ v, stoi (primary t) = some v ∧ wrapInt32 (v - 1) < 0) :
    loadLine rd st line = st := by
  apply loadLine_skipped
  refine Or.inr (Or.inr (Or.inr ⟨htag, Or.inr ?_⟩))
  obtain ⟨t, ht, hcase⟩ := hbad
  refine ⟨t, ht, ?_⟩
  unfold tokenIndex
  rcases hcase with hnone | ⟨v, hv, hneg⟩
  · rw [hnone]; decide
  · rw [hv]; exact hneg

/-- C5 (evaluation at the failing input). On the line `f 1 2 3 -2147483648` the last token is
parsed by `std::stoi` to the source value -2147483648, which is at most 0, yet the line is not
dropped: `stoi(pri) - 1` overflows `int`, the converted index is 2147483647, the test `id < 0`
fails, and the faces (0,1,2) and (0,2,2147483647) are appended. -/
theorem load_smf_int_min_token_keeps_line :
    stoi (primary ['-', '2', '1', '4', '7', '4', '8', '3', '6', '4', '8']) =
      some (-2147483648) ∧
    tokenIndex ['-', '2', '1', '4', '7', '4', '8', '3', '6', '4', '8'] = 2147483647 ∧
    loadLine (readDecimal : List Char → Option (ℚ × List Char)) ([], [])
      ['f', ' ', '1', ' ', '2', ' ', '3', ' ', '-', '2', '1', '4', '7', '4', '8', '3', '6', '4',
        '8'] = ([], [⟨0, 1, 2⟩, ⟨0, 2, 2147483647⟩]) := by
  decide

theorem toSizeT_of_valid {i : Int} (h : validIndex i) : toSizeT i = i.toNat := by
  unfold toSizeT
  rw [Int.emod_eq_of_lt h.1 (by have := h.2; omega)]

theorem toUInt_of_valid {i : Int} (h : validIndex i) : toUInt i = i.toNat := by
  unfold toUInt
  rw [Int.emod_eq_of_lt h.1 (by have := h.2; omega)]

theorem outOfRange_eq_not_inRange (n : Nat) {f : IVec3} (h : validFace f) :
    outOfRange n f = !inRange n f := by
  obtain ⟨hx, hy, hz⟩ := h
  unfold outOfRange inRange
  rw [toSizeT_of_valid hx, toSizeT_of_valid hy, toSizeT_of_valid hz]
  have ex : (n ≤ f.x.toNat) = ¬ (f.x < (n : Int)) := by
    have := hx.1; apply propext; omega
  have ey : (n ≤ f.y.toNat) = ¬ (f.y < (n : Int)) := by
    have := hy.1; apply propext; omega
  have ez : (n ≤ f.z.toNat) = ¬ (f.z < (n : Int)) := by
    have := hz.1; apply propext; omega
  simp only [ex, ey, ez, decide_not, Bool.not_and]

theorem foldl_pushIndices (n : Nat) (faces : List IVec3) :
    ∀ acc : List Nat, faces.foldl (pushIndices n) acc =
      acc ++ (faces.filter (fun f => !outOfRange n f)).flatMap
        (fun f => [toUInt f.x, toUInt f.y, toUInt f.z]) := by
  induction faces with
  | nil => intro acc; simp
  | cons f rest ih =>
    intro acc
    rw [List.foldl_cons, ih]
    unfold pushIndices
    by_cases hf : outOfRange n f = true
    · simp [hf]
    · simp [hf]

theorem indices_as_int (n : Nat) (faces : List IVec3) (hv : ∀ f ∈ faces, validFace f) :
    ((faces.filter (fun f => !outOfRange n f)).flatMap
        (fun f => [toUInt f.x, toUInt f.y, toUInt f.z])).map (fun i : Nat => (i : Int)) =
      (faces.filter (inRange n)).flatMap (fun f => [f.x, f.y, f.z]) := by
  induction faces with
  | nil => simp
  | cons f rest ih =>
    have hf := hv f (List.mem_cons_self _ _)
    have ih2 := ih (fun u hu => hv u (List.mem_cons_of_mem _ hu))
    rw [List.filter_cons, List.filter_cons, outOfRange_eq_not_inRange n hf]
    by_cases hin : inRange n f = true
    · simp only [hin, Bool.not_true, Bool.not_false, if_true, List.flatMap_cons, List.map_append,
        ih2]
      congr 1
      obtain ⟨hx, hy, hz⟩ := hf
      simp only [List.map_cons, List.map_nil, toUInt_of_valid hx, toUInt_of_valid hy,
        toUInt_of_valid hz, Int.toNat_of_nonneg hx.1, Int.toNat_of_nonneg hy.1,
        Int.toNat_of_nonneg hz.1]
    · simp only [Bool.not_eq_true] at hin
      simp only [hin, Bool.not_false]
      simpa using ih2

theorem length_flatMap_triple (faces : List IVec3) :
    (faces.flatMap (fun f => [f.x, f.y, f.z])).length = 3 * faces.length := by
  induction faces with
  | nil => rfl
  | cons f rest ih =>
    simp only [List.flatMap_cons, List.length_append, List.length_cons, List.length_nil, ih]
    omega

theorem map_Position_vertices {K : Type} [LinearOrderedField K] (sqrt : K → K)
    (positions normals : List (Vec3 K)) :
    ((List.range positions.length).map (makeVertex sqrt positions normals)).map
      Vertex.Position = positions := by
  apply List.ext_getElem
  · simp
  · intro i h1 h2
    simp [makeVertex, List.getElem?_eq_getElem h2]

/-- Value of `build_mesh_from_smf` when `load_smf` succeeds. -/
theorem build_mesh_of_load {K : Type} [LinearOrderedField K] (sqrt : K → K)
    (rd : List Char → Option (K × List Char)) (file : Option (List (List Char)))
    (g : Globals K) (hok : (load_smf rd file [] []).1 = true) :
    build_mesh_from_smf sqrt rd file g =
      (!((List.range (load_smf rd file [] []).2.1.length).map
            (makeVertex sqrt (load_smf rd file [] []).2.1
              (accumulatedNormals sqrt (load_smf rd file [] []).2.1
                (load_smf rd file [] []).2.2))).isEmpty &&
        !((load_smf rd file [] []).2.2.foldl
            (pushIndices (load_smf rd file [] []).2.1.length) []).isEmpty,
       { vertices := (List.range (load_smf rd file [] []).2.1.length).map
            (makeVertex sqrt (load_smf rd file [] []).2.1
              (accumulatedNormals sqrt (load_smf rd file [] []).2.1
                (load_smf rd file [] []).2.2)),
         indices := (load_smf rd file [] []).2.2.foldl
            (pushIndices (load_smf rd file [] []).2.1.length) [],
         modelCentroid := centroid (load_smf rd file [] []).2.1,
         modelScale := 1 / (if boundingRadius sqrt (load_smf rd file [] []).2.1
              (centroid (load_smf rd file [] []).2.1) ≤ 1 / 100000 then 1
            else boundingRadius sqrt (load_smf rd file [] []).2.1
              (centroid (load_smf rd file [] []).2.1)) }) := by
  unfold build_mesh_from_smf
  simp [hok]

theorem build_mesh_of_load_failed {K : Type} [LinearOrderedField K] (sqrt : K → K)
    (rd : List Char → Option (K × List Char)) (file : Option (List (List Char)))
    (g : Globals K) (hok : (load_smf rd file [] []).1 = false) :
    build_mesh_from_smf sqrt rd file g = (false, g) := by
  unfold build_mesh_from_smf
  simp [hok]

theorem load_smf_flag {K : Type} (rd : List Char → Option (K × List Char))
    (file : Option (List (List Char))) :
    (load_smf rd file [] []).1 = true ↔
      (load_smf rd file [] []).2.1 ≠ [] ∧ (load_smf rd file [] []).2.2 ≠ [] := by
  cases file with
  | none => simp [load_smf]
  | some lines =>
    simp only [load_smf, Bool.and_eq_true, Bool.not_eq_true', List.isEmpty_eq_false, ne_eq]

/-- C1. When `build_mesh_from_smf` succeeds, the vertex array has one entry per parsed position,
vertex i carrying position i, and the index array is the concatenation, in face parse order, of
the three indices of every face whose indices are all below the number of positions; its length
is three times the number of such faces. -/
theorem build_mesh_vertex_and_index_arrays {K : Type} [LinearOrderedField K] (sqrt : K → K)
    (rd : List Char → Option (K × List Char)) (file : Option (List (List Char)))
    (g g1 : Globals K) (h : build_mesh_from_smf sqrt rd file g = (true, g1)) :
    g1.vertices.length = (load_smf rd file [] []).2.1.length ∧
    g1.vertices.map Vertex.Position = (load_smf rd file [] []).2.1 ∧
    g1.indices.map (fun i : Nat => (i : Int)) =
      ((load_smf rd file [] []).2.2.filter
        (inRange (load_smf rd file [] []).2.1.length)).flatMap (fun f => [f.x, f.y, f.z]) ∧
    g1.indices.length =
      3 * ((load_smf rd file [] []).2.2.filter
        (inRange (load_smf rd file [] []).2.1.length)).length := by
  by_cases hok : (load_smf rd file [] []).1 = true
  · rw [build_mesh_of_load sqrt rd file g hok] at h
    have hg : g1 = _ := (congrArg Prod.snd h).symm
    have hidx : g1.indices.map (fun i : Nat => (i : Int)) =
        ((load_smf rd file [] []).2.2.filter
          (inRange (load_smf rd file [] []).2.1.length)).flatMap (fun f => [f.x, f.y, f.z]) := by
      rw [hg]
      simp only [List.length_map, List.length_range, foldl_pushIndices, List.nil_append]
      exact indices_as_int _ _ (load_smf_faces_valid rd file)
    refine ⟨?_, ?_, hidx, ?_⟩
    · rw [hg]; simp
    · rw [hg]; exact map_Position_vertices sqrt _ _
    · have := congrArg List.length hidx
      rw [List.length_map, length_flatMap_triple] at this
      exact this
  · rw [build_mesh_of_load_failed sqrt rd file g (by simpa using hok)] at h
    simp at h

theorem build_mesh_vertex_and_index_arrays_witness :
    (build_mesh_from_smf (fun x : ℚ => x) readDecimal (some triangleFile) initialGlobals).2.indices.map
        (fun i : Nat => (i : Int)) =
      ((load_smf (readDecimal : List Char → Option (ℚ × List Char))
          (some triangleFile) [] []).2.2.filter
        (inRange (load_smf (readDecimal : List Char → Option (ℚ × List Char))
          (some triangleFile) [] []).2.1.length)).flatMap (fun f => [f.x, f.y, f.z]) :=
  (build_mesh_vertex_and_index_arrays (fun x : ℚ => x) readDecimal (some triangleFile)
    initialGlobals _ (Prod.ext (by decide) rfl)).2.2.1

/-- C3. The function `build_mesh_from_smf` returns true exactly when `load_smf` parsed at least
one position and at least one face whose three indices are all below the number of positions. -/
theorem build_mesh_succeeds_iff {K : Type} [LinearOrderedField K] (sqrt : K → K)
    (rd : List Char → Option (K × List Char)) (file : Option (List (List Char)))
    (g : Globals K) :
    (build_mesh_from_smf sqrt rd file g).1 = true ↔
      ((load_smf rd file [] []).2.1 ≠ [] ∧
        ∃ f ∈ (load_smf rd file [] []).2.2,
          f.x < ((load_smf rd file [] []).2.1.length : Int) ∧
          f.y < ((load_smf rd file [] []).2.1.length : Int) ∧
          f.z < ((load_smf rd file [] []).2.1.length : Int)) := by
  have hfilter : ∀ n : Nat,
      ((load_smf rd file [] []).2.2.filter (fun f => !outOfRange n f)) =
        (load_smf rd file [] []).2.2.filter (inRange n) := by
    intro n
    apply List.filter_congr
    intro f hf
    rw [outOfRange_eq_not_inRange n (load_smf_faces_valid rd file f hf)]
    simp
  by_cases hok : (load_smf rd file [] []).1 = true
  · rw [build_mesh_of_load sqrt rd file g hok]
    obtain ⟨hp, -⟩ := (load_smf_flag rd file).1 hok
    simp only [foldl_pushIndices, List.nil_append, hfilter, Bool.and_eq_true,
      Bool.not_eq_true', List.isEmpty_eq_false, ne_eq]
    constructor
    · rintro ⟨-, hne⟩
      refine ⟨hp, ?_⟩
      cases hfl : (load_smf rd file [] []).2.2.filter
          (inRange (load_smf rd file [] []).2.1.length) with
      | nil => rw [hfl] at hne; simp at hne
      | cons f rest =>
        have hmem : f ∈ (load_smf rd file [] []).2.2.filter
          (inRange (load_smf rd file [] []).2.1.length) := by
          rw [hfl]; exact List.mem_cons_self _ _
        obtain ⟨hm, hin⟩ := List.mem_filter.1 hmem
        refine ⟨f, hm, ?_⟩
        simpa [inRange, and_assoc] using hin
    · rintro ⟨-, f, hm, hx, hy, hz⟩
      refine ⟨?_, ?_⟩
      · simpa using hp
      · have hmem : f ∈ (load_smf rd file [] []).2.2.filter
          (inRange (load_smf rd file [] []).2.1.length) := by
          apply List.mem_filter.2
          refine ⟨hm, ?_⟩
          simp [inRange, hx, hy, hz]
        intro hnil
        rw [List.flatMap_eq_nil_iff] at hnil
        have := hnil f hmem
        simp at this
  · rw [build_mesh_of_load_failed sqrt rd file g (by simpa using hok)]
    simp only [Bool.false_eq_true, false_iff, not_and, not_exists]
    intro hp f hf
    exfalso
    apply hok
    exact (load_smf_flag rd file).2 ⟨hp, List.ne_nil_of_mem hf⟩

theorem dot_scale {K : Type} [LinearOrderedField K] (v : Vec3 K) (c : K) :
    dot (v.scale c) (v.scale c) = c * c * dot v v := by
  unfold dot Vec3.scale
  ring

theorem length_normalize_real (v : Vec3 ℝ) (h : 0 < Real.sqrt (dot v v)) :
    length Real.sqrt (normalize Real.sqrt v) = 1 := by
  have hd : 0 < dot v v := Real.sqrt_pos.1 h
  have hs : Real.sqrt (dot v v) * Real.sqrt (dot v v) = dot v v := Real.mul_self_sqrt hd.le
  unfold length Smf.normalize
  rw [dot_scale]
  have : 1 / Real.sqrt (dot v v) * (1 / Real.sqrt (dot v v)) * dot v v = 1 := by
    have hne : Real.sqrt (dot v v) ≠ 0 := ne_of_gt h
    field_simp
  rw [this, Real.sqrt_one]

theorem length_default_normal_real : length Real.sqrt (⟨0, 0, 1⟩ : Vec3 ℝ) = 1 := by
  unfold length dot
  simp

theorem makeVertex_unit_normal (positions normals : List (Vec3 ℝ)) (i : Nat) :
    length Real.sqrt (makeVertex Real.sqrt positions normals i).Normal = 1 := by
  unfold makeVertex
  simp only
  split_ifs with hlen
  · apply length_normalize_real
    unfold length at hlen
    exact lt_trans (by norm_num) hlen
  · exact length_default_normal_real

theorem getD_addAt_ne {K : Type} [LinearOrderedField K] (normals : List (Vec3 K)) (j i : Nat)
    (fn : Vec3 K) (h : j ≠ i) : (addAt normals j fn).getD i 0 = normals.getD i 0 := by
  unfold addAt
  simp only [List.getD_eq_getElem?_getD, List.getElem?_set, if_neg h]

theorem accumulate_getD_unreferenced {K : Type} [LinearOrderedField K] (sqrt : K → K)
    (positions normals : List (Vec3 K)) (f : IVec3) (i : Nat)
    (h : outOfRange positions.length f = false →
      toSizeT f.x ≠ i ∧ toSizeT f.y ≠ i ∧ toSizeT f.z ≠ i) :
    (accumulate sqrt positions normals f).getD i 0 = normals.getD i 0 := by
  unfold accumulate
  split_ifs with ho
  · rfl
  · obtain ⟨hx, hy, hz⟩ := h (by simpa using ho)
    simp only
    rw [getD_addAt_ne _ _ _ _ hz, getD_addAt_ne _ _ _ _ hy, getD_addAt_ne _ _ _ _ hx]

theorem foldl_accumulate_getD_unreferenced {K : Type} [LinearOrderedField K] (sqrt : K → K)
    (positions : List (Vec3 K)) (i : Nat) (faces : List IVec3) :
    ∀ normals : List (Vec3 K),
      (∀ f ∈ faces, outOfRange positions.length f = false →
        toSizeT f.x ≠ i ∧ toSizeT f.y ≠ i ∧ toSizeT f.z ≠ i) →
      (faces.foldl (accumulate sqrt positions) normals).getD i 0 = normals.getD i 0 := by
  induction faces with
  | nil => intro normals _; rfl
  | cons f rest ih =>
    intro normals h
    rw [List.foldl_cons, ih _ (fun u hu => h u (List.mem_cons_of_mem _ hu)),
      accumulate_getD_unreferenced sqrt positions normals f i (h f (List.mem_cons_self _ _))]

theorem getD_replicate_zero {K : Type} [LinearOrderedField K] (n i : Nat) :
    (List.replicate n (0 : Vec3 K)).getD i 0 = 0 := by
  rw [List.getD_eq_getElem?_getD]
  by_cases h : i < n
  · simp [List.getElem?_replicate, h]
  · simp [List.getElem?_replicate, h]

/-- C7. Over the reals, every vertex normal produced by a successful `build_mesh_from_smf` has
length exactly 1, and a vertex referenced by no face within range has the normal `(0, 0, 1)`. -/
theorem build_mesh_unit_normals (rd : List Char → Option (ℝ × List Char))
    (file : Option (List (List Char))) (g g1 : Globals ℝ)
    (h : build_mesh_from_smf Real.sqrt rd file g = (true, g1)) :
    (∀ v ∈ g1.vertices, length Real.sqrt v.Normal = 1) ∧
    (∀ i : Nat,
      (∀ f ∈ (load_smf rd file [] []).2.2,
        inRange (load_smf rd file [] []).2.1.length f = true →
          f.x ≠ (i : Int) ∧ f.y ≠ (i : Int) ∧ f.z ≠ (i : Int)) →
      ∀ v, g1.vertices[i]? = some v → v.Normal = ⟨0, 0, 1⟩) := by
  by_cases hok : (load_smf rd file [] []).1 = true
  · rw [build_mesh_of_load Real.sqrt rd file g hok] at h
    have hg : g1 = _ := (congrArg Prod.snd h).symm
    constructor
    · intro v hv
      rw [hg] at hv
      obtain ⟨i, -, rfl⟩ := List.mem_map.1 hv
      exact makeVertex_unit_normal _ _ i
    · intro i href v hv
      rw [hg] at hv
      simp only [List.getElem?_map] at hv
      cases hr : (List.range (load_smf rd file [] []).2.1.length)[i]? with
      | none => rw [hr] at hv; simp at hv
      | some j =>
        rw [hr] at hv
        simp only [Option.map_some', Option.some.injEq] at hv
        have hj : j = i := by
          rw [List.getElem?_eq_some_iff] at hr
          obtain ⟨hlt, hget⟩ := hr
          simpa using hget.symm
        subst hj
        have hzero : (accumulatedNormals Real.sqrt (load_smf rd file [] []).2.1
            (load_smf rd file [] []).2.2).getD j 0 = 0 := by
          unfold accumulatedNormals
          rw [foldl_accumulate_getD_unreferenced, getD_replicate_zero]
          intro f hf hin
          have hvf := load_smf_faces_valid rd file f hf
          have hin2 : inRange (load_smf rd file [] []).2.1.length f = true := by
            rw [outOfRange_eq_not_inRange _ hvf] at hin
            simpa using hin
          obtain ⟨hx, hy, hz⟩ := href f hf hin2
          rw [toSizeT_of_valid hvf.1, toSizeT_of_valid hvf.2.1, toSizeT_of_valid hvf.2.2]
          have := hvf.1.1
          have := hvf.2.1.1
          have := hvf.2.2.1
          omega
        rw [← hv]
        unfold makeVertex
        simp only [hzero]
        rw [if_neg]
        have : length Real.sqrt (0 : Vec3 ℝ) = 0 := by
          show Real.sqrt (dot (⟨0, 0, 0⟩ : Vec3 ℝ) ⟨0, 0, 0⟩) = 0
          simp [dot]
        rw [this]
        norm_num
  · rw [build_mesh_of_load_failed Real.sqrt rd file g (by simpa using hok)] at h
    simp at h

theorem build_mesh_unit_normals_witness :
    (∀ v ∈ (build_mesh_from_smf Real.sqrt readDecimal (some isolatedVertexFile)
        initialGlobals).2.vertices, length Real.sqrt v.Normal = 1) ∧
    (∀ v, (build_mesh_from_smf Real.sqrt readDecimal (some isolatedVertexFile)
        initialGlobals).2.vertices[3]? = some v → v.Normal = ⟨0, 0, 1⟩) :=
  ⟨(build_mesh_unit_normals readDecimal (some isolatedVertexFile) initialGlobals _
      (Prod.ext (by decide) rfl)).1,
   (build_mesh_unit_normals readDecimal (some isolatedVertexFile) initialGlobals _
      (Prod.ext (by decide) rfl)).2 3 (by decide)⟩

theorem Vec3.add_def {K : Type} [LinearOrderedField K] (a b : Vec3 K) :
    a + b = ⟨a.x + b.x, a.y + b.y, a.z + b.z⟩ := rfl

theorem Vec3.sub_def {K : Type} [LinearOrderedField K] (a b : Vec3 K) :
    a - b = ⟨a.x - b.x, a.y - b.y, a.z - b.z⟩ := rfl

theorem Vec3.zero_def {K : Type} [LinearOrderedField K] : (0 : Vec3 K) = ⟨0, 0, 0⟩ := rfl

theorem loadLine_v {K : Type} (rd : List Char → Option (K × List Char))
    (st : List (Vec3 K) × List IVec3) (line : List Char) (p : Vec3 K)
    (h : (extractWord line).1 = ['v']) (hp : readVec3 rd (extractWord line).2 = some p) :
    loadLine rd st line = (st.1 ++ [p], st.2) := by
  obtain ⟨d, hd, hnc⟩ := not_comment_of_tag line 'v' h (by decide) (by decide)
  unfold loadLine
  rw [hd]
  simp only
  rw [if_neg hnc, if_pos h, hp]

theorem load_smf_triangleFile {K : Type} [LinearOrderedField K]
    (rd : List Char → Option (K × List Char))
    (h0 : readVec3 rd [' ', '0', ' ', '0', ' ', '0'] = some ⟨0, 0, 0⟩)
    (h1 : readVec3 rd [' ', '1', ' ', '0', ' ', '0'] = some ⟨1, 0, 0⟩)
    (h2 : readVec3 rd [' ', '0', ' ', '1', ' ', '0'] = some ⟨0, 1, 0⟩) :
    load_smf rd (some triangleFile) [] [] =
      (true, [⟨0, 0, 0⟩, ⟨1, 0, 0⟩, ⟨0, 1, 0⟩], [⟨0, 1, 2⟩]) := by
  have l0 : ∀ st : List (Vec3 K) × List IVec3,
      loadLine rd st ['v', ' ', '0', ' ', '0', ' ', '0'] = (st.1 ++ [⟨0, 0, 0⟩], st.2) :=
    fun st => loadLine_v rd st ['v', ' ', '0', ' ', '0', ' ', '0'] _ (by decide) h0
  have l1 : ∀ st : List (Vec3 K) × List IVec3,
      loadLine rd st ['v', ' ', '1', ' ', '0', ' ', '0'] = (st.1 ++ [⟨1, 0, 0⟩], st.2) :=
    fun st => loadLine_v rd st ['v', ' ', '1', ' ', '0', ' ', '0'] _ (by decide) h1
  have l2 : ∀ st : List (Vec3 K) × List IVec3,
      loadLine rd st ['v', ' ', '0', ' ', '1', ' ', '0'] = (st.1 ++ [⟨0, 1, 0⟩], st.2) :=
    fun st => loadLine_v rd st ['v', ' ', '0', ' ', '1', ' ', '0'] _ (by decide) h2
  have hf : faceLine (extractWord ['f', ' ', '1', ' ', '2', ' ', '3']).2 = [⟨0, 1, 2⟩] := by
    decide
  have l3 : ∀ st : List (Vec3 K) × List IVec3,
      loadLine rd st ['f', ' ', '1', ' ', '2', ' ', '3'] = (st.1, st.2 ++ [⟨0, 1, 2⟩]) := by
    intro st
    rw [loadLine_f rd st _ (by decide), hf]
  unfold load_smf triangleFile
  simp only [List.foldl_cons, List.foldl_nil, l0, l1, l2, l3]
  rfl

theorem accumulatedNormals_triangle :
    accumulatedNormals Real.sqrt [(⟨0, 0, 0⟩ : Vec3 ℝ), ⟨1, 0, 0⟩, ⟨0, 1, 0⟩] [⟨0, 1, 2⟩] =
      [⟨0, 0, 1⟩, ⟨0, 0, 1⟩, ⟨0, 0, 1⟩] := by
  have hfn : faceNormal Real.sqrt [(⟨0, 0, 0⟩ : Vec3 ℝ), ⟨1, 0, 0⟩, ⟨0, 1, 0⟩] ⟨0, 1, 2⟩ =
      ⟨0, 0, 1⟩ := by
    have t0 : toSizeT 0 = 0 := by decide
    have t1 : toSizeT 1 = 1 := by decide
    have t2 : toSizeT 2 = 2 := by decide
    unfold faceNormal
    simp only [t0, t1, t2, List.getD_cons_zero, List.getD_cons_succ, Vec3.sub_def, cross, length,
      dot, Smf.normalize, Vec3.scale]
    norm_num
  have hor : outOfRange 3 ⟨0, 1, 2⟩ = false := by decide
  unfold accumulatedNormals
  simp only [List.foldl_cons, List.foldl_nil, accumulate, List.length_cons, List.length_nil,
    hor, hfn]
  have t0 : toSizeT 0 = 0 := by decide
  have t1 : toSizeT 1 = 1 := by decide
  have t2 : toSizeT 2 = 2 := by decide
  simp [t0, t1, t2, addAt, Vec3.add_def, Vec3.zero_def]

/-- C8. For the file with positions (0,0,0), (1,0,0), (0,1,0) and the single face line `f 1 2 3`,
`load_smf` followed by `build_mesh_from_smf` succeeds and produces exactly three vertices, the
index array [0, 1, 2] and the normal (0, 0, 1) on all three vertices. -/
theorem build_mesh_single_triangle (rd : List Char → Option (ℝ × List Char)) (g : Globals ℝ)
    (h0 : readVec3 rd [' ', '0', ' ', '0', ' ', '0'] = some ⟨0, 0, 0⟩)
    (h1 : readVec3 rd [' ', '1', ' ', '0', ' ', '0'] = some ⟨1, 0, 0⟩)
    (h2 : readVec3 rd [' ', '0', ' ', '1', ' ', '0'] = some ⟨0, 1, 0⟩) :
    (build_mesh_from_smf Real.sqrt rd (some triangleFile) g).1 = true ∧
    (build_mesh_from_smf Real.sqrt rd (some triangleFile) g).2.vertices =
      [⟨⟨0, 0, 0⟩, ⟨0, 0, 1⟩⟩, ⟨⟨1, 0, 0⟩, ⟨0, 0, 1⟩⟩, ⟨⟨0, 1, 0⟩, ⟨0, 0, 1⟩⟩] ∧
    (build_mesh_from_smf Real.sqrt rd (some triangleFile) g).2.indices = [0, 1, 2] := by
  have hload := load_smf_triangleFile rd h0 h1 h2
  have hok : (load_smf rd (some triangleFile) [] []).1 = true := by rw [hload]
  rw [build_mesh_of_load Real.sqrt rd (some triangleFile) g hok, hload]
  have hidx : List.foldl (pushIndices 3) [] [(⟨0, 1, 2⟩ : IVec3)] = [0, 1, 2] := by decide
  have hvert : (List.range 3).map (makeVertex Real.sqrt
      [(⟨0, 0, 0⟩ : Vec3 ℝ), ⟨1, 0, 0⟩, ⟨0, 1, 0⟩] [⟨0, 0, 1⟩, ⟨0, 0, 1⟩, ⟨0, 0, 1⟩]) =
      [⟨⟨0, 0, 0⟩, ⟨0, 0, 1⟩⟩, ⟨⟨1, 0, 0⟩, ⟨0, 0, 1⟩⟩, ⟨⟨0, 1, 0⟩, ⟨0, 0, 1⟩⟩] := by
    have hr : List.range 3 = [0, 1, 2] := by decide
    rw [hr]
    simp only [List.map_cons, List.map_nil, makeVertex, List.getD_cons_zero, List.getD_cons_succ,
      length, dot, Smf.normalize, Vec3.scale]
    norm_num
  simp only [accumulatedNormals_triangle, List.length_cons, List.length_nil]
  refine ⟨?_, ?_, ?_⟩
  · rw [hvert, hidx]; rfl
  · exact hvert
  · exact hidx

theorem readVec3_readDecimal_000 :
    readVec3 (readDecimal : List Char → Option (ℝ × List Char))
      [' ', '0', ' ', '0', ' ', '0'] = some ⟨0, 0, 0⟩ := by
  simp [readVec3, readDecimal, digitsValue, isspace, Char.isDigit]

theorem readVec3_readDecimal_100 :
    readVec3 (readDecimal : List Char → Option (ℝ × List Char))
      [' ', '1', ' ', '0', ' ', '0'] = some ⟨1, 0, 0⟩ := by
  simp [readVec3, readDecimal, digitsValue, isspace, Char.isDigit]

theorem readVec3_readDecimal_010 :
    readVec3 (readDecimal : List Char → Option (ℝ × List Char))
      [' ', '0', ' ', '1', ' ', '0'] = some ⟨0, 1, 0⟩ := by
  simp [readVec3, readDecimal, digitsValue, isspace, Char.isDigit]

theorem build_mesh_single_triangle_witness :
    (build_mesh_from_smf Real.sqrt readDecimal (some triangleFile) initialGlobals).1 = true ∧
    (build_mesh_from_smf Real.sqrt readDecimal (some triangleFile) initialGlobals).2.vertices =
      [⟨⟨0, 0, 0⟩, ⟨0, 0, 1⟩⟩, ⟨⟨1, 0, 0⟩, ⟨0, 0, 1⟩⟩, ⟨⟨0, 1, 0⟩, ⟨0, 0, 1⟩⟩] ∧
    (build_mesh_from_smf Real.sqrt readDecimal (some triangleFile) initialGlobals).2.indices =
      [0, 1, 2] :=
  build_mesh_single_triangle readDecimal initialGlobals readVec3_readDecimal_000
    readVec3_readDecimal_100 readVec3_readDecimal_010

/-! ## The input rig -/

theorem processInput_cameraRadius {K : Type} [LinearOrderedField K] (r : Rig K) (g : Nat → Nat)
    (h : 5 / 100 ≤ r.cameraRadius) : 5 / 100 ≤ (processInput r g).cameraRadius := by
  have keep : ∀ (c : Prop) [Decidable c] (a b : Rig K),
      (5 : K) / 100 ≤ a.cameraRadius → (5 : K) / 100 ≤ b.cameraRadius →
      (5 : K) / 100 ≤ (if c then a else b).cameraRadius := by
    intro c _ a b ha hb
    split_ifs
    · exact ha
    · exact hb
  unfold processInput
  lift_lets
  intro r1 r2 r3 r4 r5 r6 src r7
  have h1 : (5 : K) / 100 ≤ r1.cameraRadius := keep _ _ _ h h
  have h2 : (5 : K) / 100 ≤ r2.cameraRadius := keep _ _ _ h1 h1
  have h3 : (5 : K) / 100 ≤ r3.cameraRadius := keep _ _ _ (le_max_left _ _) h2
  have h4 : (5 : K) / 100 ≤ r4.cameraRadius :=
    keep _ _ _ (le_trans h3 (le_add_of_nonneg_right (by norm_num))) h3
  have h5 : (5 : K) / 100 ≤ r5.cameraRadius := keep _ _ _ h4 h4
  have h6 : (5 : K) / 100 ≤ r6.cameraRadius := keep _ _ _ h5 h5
  have hs : (5 : K) / 100 ≤ src.cameraRadius := keep _ _ _ h6 h6
  have h7 : (5 : K) / 100 ≤ r7.cameraRadius := keep _ _ _ hs h6
  exact keep _ _ _ h7 h7

theorem runFrames_cameraRadius {K : Type} [LinearOrderedField K] (frames : List (Nat → Nat)) :
    ∀ r : Rig K, 5 / 100 ≤ r.cameraRadius → 5 / 100 ≤ (runFrames r frames).cameraRadius := by
  induction frames with
  | nil => intro r h; exact h
  | cons g rest ih =>
    intro r h
    exact ih _ (processInput_cameraRadius r g h)

theorem processInput_toggle {K : Type} [LinearOrderedField K] (r : Rig K) (g : Nat → Nat) :
    (processInput r g).perspectiveProj =
        (if decide (g GLFW_KEY_P = GLFW_PRESS) && !r.pWasPressed then !r.perspectiveProj
          else r.perspectiveProj) ∧
      (processInput r g).pWasPressed = decide (g GLFW_KEY_P = GLFW_PRESS) := by
  have keep : ∀ (c : Prop) [Decidable c] (a b : Rig K) (x y : Bool),
      (a.perspectiveProj = x ∧ a.pWasPressed = y) → (b.perspectiveProj = x ∧ b.pWasPressed = y) →
      ((if c then a else b).perspectiveProj = x ∧ (if c then a else b).pWasPressed = y) := by
    intro c _ a b x y ha hb
    split_ifs
    · exact ha
    · exact hb
  unfold processInput
  lift_lets
  intro r1 r2 r3 r4 r5 r6 src r7
  have h0 : r.perspectiveProj = r.perspectiveProj ∧ r.pWasPressed = r.pWasPressed := ⟨rfl, rfl⟩
  have h1 : r1.perspectiveProj = r.perspectiveProj ∧ r1.pWasPressed = r.pWasPressed :=
    keep _ _ _ _ _ h0 h0
  have h2 : r2.perspectiveProj = r.perspectiveProj ∧ r2.pWasPressed = r.pWasPressed :=
    keep _ _ _ _ _ h1 h1
  have h3 : r3.perspectiveProj = r.perspectiveProj ∧ r3.pWasPressed = r.pWasPressed :=
    keep _ _ _ _ _ h2 h2
  have h4 : r4.perspectiveProj = r.perspectiveProj ∧ r4.pWasPressed = r.pWasPressed :=
    keep _ _ _ _ _ h3 h3
  have h5 : r5.perspectiveProj = r.perspectiveProj ∧ r5.pWasPressed = r.pWasPressed :=
    keep _ _ _ _ _ h4 h4
  have h6 : r6.perspectiveProj = r.perspectiveProj ∧ r6.pWasPressed = r.pWasPressed :=
    keep _ _ _ _ _ h5 h5
  have hs : src.perspectiveProj =
      (if !r.pWasPressed then !r.perspectiveProj else r.perspectiveProj) := by
    show (if (!r6.pWasPressed) = true then _ else r6).perspectiveProj = _
    rw [h6.2]
    split_ifs
    · show (!r6.perspectiveProj) = _
      rw [h6.1]
    · exact h6.1
  have h7 : r7.perspectiveProj =
        (if decide (g GLFW_KEY_P = GLFW_PRESS) && !r.pWasPressed then !r.perspectiveProj
          else r.perspectiveProj) ∧
      r7.pWasPressed = decide (g GLFW_KEY_P = GLFW_PRESS) := by
    by_cases hp : g GLFW_KEY_P = GLFW_PRESS
    · have e : r7 = { src with pWasPressed := true } := if_pos hp
      rw [e]
      simp only [hp, decide_True, Bool.true_and]
      exact ⟨hs, trivial⟩
    · have e : r7 = { r6 with pWasPressed := false } := if_neg hp
      rw [e]
      simp only [hp, decide_False, Bool.false_and]
      exact ⟨h6.1, trivial⟩
  exact keep _ _ _ _ _ h7 h7

theorem not_iterate_succ_left (n : Nat) (b : Bool) :
    (fun x : Bool => !x)^[n] (!b) = !((fun x : Bool => !x)^[n] b) := by
  induction n generalizing b with
  | zero => rfl
  | succ k ih => rw [Function.iterate_succ_apply, Function.iterate_succ_apply, ih]

theorem not_iterate_eq_self_iff (n : Nat) (b : Bool) :
    (fun x : Bool => !x)^[n] b = b ↔ Even n := by
  induction n with
  | zero => simp
  | succ k ih =>
    rw [Function.iterate_succ_apply, not_iterate_succ_left, Nat.even_add_one, ← ih]
    cases hb : (fun x : Bool => !x)^[k] b <;> cases b <;> simp

theorem risingEdges_cons (prev s : Bool) (rest : List Bool) :
    risingEdges prev (s :: rest) = risingEdges s rest + (if s && !prev then 1 else 0) := by
  unfold risingEdges
  rw [edgeTrace]
  cases h : (s && !prev) <;> simp [List.count_cons]

theorem risingEdges_replicate_true (n : Nat) :
    risingEdges true (List.replicate n true) = 0 := by
  induction n with
  | zero => rfl
  | succ k ih => rw [List.replicate_succ, risingEdges_cons, ih]; rfl

theorem runFrames_perspectiveProj {K : Type} [LinearOrderedField K]
    (frames : List (Nat → Nat)) :
    ∀ r : Rig K, (runFrames r frames).perspectiveProj =
      (fun x : Bool => !x)^[risingEdges r.pWasPressed
        (frames.map (fun g => decide (g GLFW_KEY_P = GLFW_PRESS)))] r.perspectiveProj := by
  induction frames with
  | nil => intro r; rfl
  | cons g rest ih =>
    intro r
    show (runFrames (processInput r g) rest).perspectiveProj = _
    rw [ih, (processInput_toggle r g).1, (processInput_toggle r g).2, List.map_cons,
      risingEdges_cons, Function.iterate_add_apply]
    split_ifs <;> rfl

end SmfViewer

namespace ShadingDemo
open Smf

/-! ## Input handling of `shading_demo.cpp` -/

theorem keyPressedOnce_eq (prevKeys : Nat → Bool) (g : Nat → Nat) (key : Nat) :
    keyPressedOnce prevKeys g key =
      (held g key && !prevKeys key, Function.update prevKeys key (held g key)) := by
  unfold keyPressedOnce held
  simp only
  cases hp : (decide (g key = GLFW_PRESS) || decide (g key = GLFW_REPEAT)) <;>
    cases hk : prevKeys key
  · simp
  · simp
  · simp
  · simp only [Bool.not_true, Bool.and_false, Bool.false_eq_true, if_false, Bool.not_eq_true,
      Prod.mk.injEq, true_and]
    rw [← hk, Function.update_eq_self]

theorem pressTrace_eq_edgeTrace (key : Nat) (frames : List (Nat → Nat)) :
    ∀ prevKeys : Nat → Bool,
      pressTrace key prevKeys frames =
        edgeTrace (prevKeys key) (frames.map (fun g => held g key)) := by
  induction frames with
  | nil => intro pk; rfl
  | cons g rest ih =>
    intro pk
    rw [pressTrace, ih, keyPressedOnce_eq, List.map_cons, edgeTrace]
    simp

theorem processContinuousInput_camRadius {K : Type} [LinearOrderedField K] (r : Rig K)
    (g : Nat → Nat) (h : 2 / 10 ≤ r.camRadius) :
    2 / 10 ≤ (processContinuousInput r g).camRadius := by
  have keep : ∀ (c : Prop) [Decidable c] (a b : Rig K),
      (2 : K) / 10 ≤ a.camRadius → (2 : K) / 10 ≤ b.camRadius →
      (2 : K) / 10 ≤ (if c then a else b).camRadius := by
    intro c _ a b ha hb
    split_ifs
    · exact ha
    · exact hb
  unfold processContinuousInput
  lift_lets
  intro r1 r2 c r3 r4 r5 r6 r7 r8 r9
  have h1 : (2 : K) / 10 ≤ r1.camRadius := keep _ _ _ h h
  have h2 : (2 : K) / 10 ≤ r2.camRadius := keep _ _ _ h1 h1
  have hc : (2 : K) / 10 ≤ (if c < 2 / 10 then 2 / 10 else c) := by
    split_ifs with hlt
    · exact le_refl _
    · exact not_lt.1 hlt
  have h3 : (2 : K) / 10 ≤ r3.camRadius := keep _ _ _ hc h2
  have h4 : (2 : K) / 10 ≤ r4.camRadius :=
    keep _ _ _ (le_trans h3 (le_add_of_nonneg_right (by norm_num))) h3
  have h5 : (2 : K) / 10 ≤ r5.camRadius := keep _ _ _ h4 h4
  have h6 : (2 : K) / 10 ≤ r6.camRadius := keep _ _ _ h5 h5
  have h7 : (2 : K) / 10 ≤ r7.camRadius := keep _ _ _ h6 h6
  have h8 : (2 : K) / 10 ≤ r8.camRadius := keep _ _ _ h7 h7
  have h9 : (2 : K) / 10 ≤ r9.camRadius := keep _ _ _ h8 h8
  exact keep _ _ _ h9 h9

theorem processContinuousInput_modes {K : Type} [LinearOrderedField K] (r : Rig K)
    (g : Nat → Nat) : modes (processContinuousInput r g) = modes r := by
  have keep : ∀ (c : Prop) [Decidable c] (a b : Rig K),
      modes a = modes r → modes b = modes r → modes (if c then a else b) = modes r := by
    intro c _ a b ha hb
    split_ifs
    · exact ha
    · exact hb
  unfold processContinuousInput
  lift_lets
  intro r1 r2 c r3 r4 r5 r6 r7 r8 r9
  have h1 : modes r1 = modes r := keep _ _ _ rfl rfl
  have h2 : modes r2 = modes r := keep _ _ _ h1 h1
  have h3 : modes r3 = modes r := keep _ _ _ h2 h2
  have h4 : modes r4 = modes r := keep _ _ _ h3 h3
  have h5 : modes r5 = modes r := keep _ _ _ h4 h4
  have h6 : modes r6 = modes r := keep _ _ _ h5 h5
  have h7 : modes r7 = modes r := keep _ _ _ h6 h6
  have h8 : modes r8 = modes r := keep _ _ _ h7 h7
  have h9 : modes r9 = modes r := keep _ _ _ h8 h8
  exact keep _ _ _ h9 h9

theorem onKeyPressedOnce_camRadius {K : Type} (r : Rig K) (g : Nat → Nat) (key : Nat)
    (action : Rig K → Rig K) (ha : ∀ x : Rig K, (action x).camRadius = x.camRadius) :
    (onKeyPressedOnce r g key action).camRadius = r.camRadius := by
  unfold onKeyPressedOnce
  simp only
  split_ifs
  · rw [ha]
  · rfl

theorem onKeyPressedOnce_prevKeys {K : Type} (r : Rig K) (g : Nat → Nat) (key : Nat)
    (action : Rig K → Rig K) (ha : ∀ x : Rig K, (action x).prevKeys = x.prevKeys) :
    (onKeyPressedOnce r g key action).prevKeys =
      Function.update r.prevKeys key (held g key) := by
  unfold onKeyPressedOnce
  simp only [keyPressedOnce_eq]
  split_ifs
  · rw [ha]
  · rfl

theorem onKeyPressedOnce_usePhong_keep {K : Type} (r : Rig K) (g : Nat → Nat) (key : Nat)
    (action : Rig K → Rig K) (ha : ∀ x : Rig K, (action x).g_usePhong = x.g_usePhong) :
    (onKeyPressedOnce r g key action).g_usePhong = r.g_usePhong := by
  unfold onKeyPressedOnce
  simp only
  split_ifs
  · rw [ha]
  · rfl

theorem onKeyPressedOnce_perspective_keep {K : Type} (r : Rig K) (g : Nat → Nat) (key : Nat)
    (action : Rig K → Rig K) (ha : ∀ x : Rig K, (action x).g_perspective = x.g_perspective) :
    (onKeyPressedOnce r g key action).g_perspective = r.g_perspective := by
  unfold onKeyPressedOnce
  simp only
  split_ifs
  · rw [ha]
  · rfl

theorem onKeyPressedOnce_usePhong_toggle {K : Type} (r : Rig K) (g : Nat → Nat) (key : Nat) :
    (onKeyPressedOnce r g key (fun x => { x with g_usePhong := !x.g_usePhong })).g_usePhong =
      (if held g key && !r.prevKeys key then !r.g_usePhong else r.g_usePhong) := by
  unfold onKeyPressedOnce
  simp only [keyPressedOnce_eq]
  split_ifs <;> rfl

theorem onKeyPressedOnce_perspective_toggle {K : Type} (r : Rig K) (g : Nat → Nat)
    (key : Nat) :
    (onKeyPressedOnce r g key
        (fun x => { x with g_perspective := !x.g_perspective })).g_perspective =
      (if held g key && !r.prevKeys key then !r.g_perspective else r.g_perspective) := by
  unfold onKeyPressedOnce
  simp only [keyPressedOnce_eq]
  split_ifs <;> rfl

theorem mainLoopInput_camRadius {K : Type} [LinearOrderedField K] (r : Rig K) (g : Nat → Nat)
    (h : 2 / 10 ≤ r.camRadius) : 2 / 10 ≤ (mainLoopInput r g).camRadius := by
  unfold mainLoopInput
  simp only
  rw [onKeyPressedOnce_camRadius,
    onKeyPressedOnce_camRadius,
    onKeyPressedOnce_camRadius,
    onKeyPressedOnce_camRadius,
    onKeyPressedOnce_camRadius,
    onKeyPressedOnce_camRadius]
  · exact processContinuousInput_camRadius r g h
  all_goals (intro x; rfl)

theorem runFrames_camRadius {K : Type} [LinearOrderedField K] (frames : List (Nat → Nat)) :
    ∀ r : Rig K, 2 / 10 ≤ r.camRadius → 2 / 10 ≤ (runFrames r frames).camRadius := by
  induction frames with
  | nil => intro r h; exact h
  | cons g rest ih =>
    intro r h
    exact ih _ (mainLoopInput_camRadius r g h)

theorem mainLoopInput_usePhong {K : Type} [LinearOrderedField K] (r : Rig K) (g : Nat → Nat) :
    (mainLoopInput r g).g_usePhong =
        (if held g GLFW_KEY_G && !r.prevKeys GLFW_KEY_G then !r.g_usePhong else r.g_usePhong) ∧
      (mainLoopInput r g).prevKeys GLFW_KEY_G = held g GLFW_KEY_G := by
  have hm := processContinuousInput_modes r g
  have hpk : (processContinuousInput r g).prevKeys = r.prevKeys := congrArg (fun m => m.1) hm
  have hph : (processContinuousInput r g).g_usePhong = r.g_usePhong :=
    congrArg (fun m => m.2.1) hm
  unfold mainLoopInput
  simp only
  constructor
  · rw [onKeyPressedOnce_usePhong_keep,
      onKeyPressedOnce_usePhong_keep,
      onKeyPressedOnce_usePhong_keep,
      onKeyPressedOnce_usePhong_keep,
      onKeyPressedOnce_usePhong_keep,
      onKeyPressedOnce_usePhong_toggle, hpk, hph]
    all_goals (intro x; rfl)
  · rw [onKeyPressedOnce_prevKeys,
      onKeyPressedOnce_prevKeys,
      onKeyPressedOnce_prevKeys,
      onKeyPressedOnce_prevKeys,
      onKeyPressedOnce_prevKeys,
      onKeyPressedOnce_prevKeys]
    · simp [Function.update, GLFW_KEY_G, GLFW_KEY_P, GLFW_KEY_1, GLFW_KEY_2, GLFW_KEY_3,
        GLFW_KEY_ESCAPE]
    all_goals (intro x; rfl)

theorem mainLoopInput_perspective {K : Type} [LinearOrderedField K] (r : Rig K)
    (g : Nat → Nat) :
    (mainLoopInput r g).g_perspective =
        (if held g GLFW_KEY_P && !r.prevKeys GLFW_KEY_P then !r.g_perspective
          else r.g_perspective) ∧
      (mainLoopInput r g).prevKeys GLFW_KEY_P = held g GLFW_KEY_P := by
  have hm := processContinuousInput_modes r g
  have hpk : (processContinuousInput r g).prevKeys = r.prevKeys := congrArg (fun m => m.1) hm
  have hpe : (processContinuousInput r g).g_perspective = r.g_perspective :=
    congrArg (fun m => m.2.2) hm
  unfold mainLoopInput
  simp only
  constructor
  · rw [onKeyPressedOnce_perspective_keep,
      onKeyPressedOnce_perspective_keep,
      onKeyPressedOnce_perspective_keep,
      onKeyPressedOnce_perspective_keep,
      onKeyPressedOnce_perspective_toggle,
      onKeyPressedOnce_prevKeys,
      onKeyPressedOnce_perspective_keep, hpk, hpe]
    · have hne : Function.update r.prevKeys GLFW_KEY_G (held g GLFW_KEY_G) GLFW_KEY_P =
          r.prevKeys GLFW_KEY_P := by
        simp [Function.update, GLFW_KEY_G, GLFW_KEY_P]
      rw [hne]
    all_goals (intro x; rfl)
  · rw [onKeyPressedOnce_prevKeys,
      onKeyPressedOnce_prevKeys,
      onKeyPressedOnce_prevKeys,
      onKeyPressedOnce_prevKeys,
      onKeyPressedOnce_prevKeys,
      onKeyPressedOnce_prevKeys]
    · simp [Function.update, GLFW_KEY_G, GLFW_KEY_P, GLFW_KEY_1, GLFW_KEY_2, GLFW_KEY_3,
        GLFW_KEY_ESCAPE]
    all_goals (intro x; rfl)

theorem runFrames_usePhong {K : Type} [LinearOrderedField K] (frames : List (Nat → Nat)) :
    ∀ r : Rig K, (runFrames r frames).g_usePhong =
      (fun x : Bool => !x)^[risingEdges (r.prevKeys GLFW_KEY_G)
        (frames.map (fun g => held g GLFW_KEY_G))] r.g_usePhong := by
  induction frames with
  | nil => intro r; rfl
  | cons g rest ih =>
    intro r
    show (runFrames (mainLoopInput r g) rest).g_usePhong = _
    rw [ih, (mainLoopInput_usePhong r g).1, (mainLoopInput_usePhong r g).2, List.map_cons,
      SmfViewer.risingEdges_cons, Function.iterate_add_apply]
    split_ifs <;> rfl

theorem runFrames_perspective {K : Type} [LinearOrderedField K] (frames : List (Nat → Nat)) :
    ∀ r : Rig K, (runFrames r frames).g_perspective =
      (fun x : Bool => !x)^[risingEdges (r.prevKeys GLFW_KEY_P)
        (frames.map (fun g => held g GLFW_KEY_P))] r.g_perspective := by
  induction frames with
  | nil => intro r; rfl
  | cons g rest ih =>
    intro r
    show (runFrames (mainLoopInput r g) rest).g_perspective = _
    rw [ih, (mainLoopInput_perspective r g).1, (mainLoopInput_perspective r g).2, List.map_cons,
      SmfViewer.risingEdges_cons, Function.iterate_add_apply]
    split_ifs <;> rfl

end ShadingDemo

/-! ## Claims across both programs -/

namespace ShadingDemo
open Smf

/-- C2 (evaluation at the failing input). For the file `v 0 0 0`, `v 1 0 0`, `v 0 1 0`,
`f 1 2 3`, `f 1 2 99`, `buildMeshFromSMF` succeeds with three vertices and keeps the face that
references index 98: `g_indices` is `[0, 1, 2, 0, 1, 98]`, and its last element is not below the
number of vertices. -/
theorem buildMeshFromSMF_keeps_out_of_range_face {K : Type} [LinearOrderedField K]
    (sqrt : K → K) :
    (buildMeshFromSMF sqrt readDecimal (some outOfRangeFaceFile) initialGlobals).1 = true ∧
    (buildMeshFromSMF sqrt readDecimal (some outOfRangeFaceFile)
      initialGlobals).2.g_vertices.length = 3 ∧
    (buildMeshFromSMF sqrt readDecimal (some outOfRangeFaceFile) initialGlobals).2.g_indices =
      [0, 1, 2, 0, 1, 98] ∧
    ¬ (∀ i ∈ (buildMeshFromSMF sqrt readDecimal (some outOfRangeFaceFile)
        initialGlobals).2.g_indices,
      i < (buildMeshFromSMF sqrt readDecimal (some outOfRangeFaceFile)
        initialGlobals).2.g_vertices.length) := by
  have h1 : (buildMeshFromSMF sqrt readDecimal (some outOfRangeFaceFile)
      initialGlobals).2.g_vertices.length = 3 := rfl
  have h2 : (buildMeshFromSMF sqrt readDecimal (some outOfRangeFaceFile)
      initialGlobals).2.g_indices = [0, 1, 2, 0, 1, 98] := rfl
  refine ⟨rfl, h1, h2, ?_⟩
  rw [h1, h2]
  decide

end ShadingDemo

/-- C9. Camera radius never drops below its configured minimum: from the initial rig, after any
finite sequence of per-frame key samples, `cameraRadius ≥ 0.05` under `processInput`
(`smf_viewer.cpp`) and `camRadius ≥ 0.2` under the main-loop input handling with
`processContinuousInput` (`shading_demo.cpp`). -/
theorem camera_radius_never_below_minimum {K : Type} [LinearOrderedField K] :
    (∀ frames : List (Nat → Nat),
      (5 : K) / 100 ≤ (SmfViewer.runFrames SmfViewer.initialRig frames).cameraRadius) ∧
    (∀ frames : List (Nat → Nat),
      (2 : K) / 10 ≤ (ShadingDemo.runFrames ShadingDemo.initialRig frames).camRadius) := by
  constructor
  · intro frames
    apply SmfViewer.runFrames_cameraRadius
    show (5 : K) / 100 ≤ 3
    norm_num
  · intro frames
    apply ShadingDemo.runFrames_camRadius
    show (2 : K) / 10 ≤ 35 / 10
    norm_num

/-- C10. Edge-triggered toggles fire exactly once per fresh press. Starting from the released
state, `keyPressedOnce` returns true on exactly the frames where the key is held and was not held
on the previous frame; `g_usePhong`, `g_perspective` (`shading_demo.cpp`) and `perspectiveProj`
(`smf_viewer.cpp`) end at their initial value flipped once per released-to-held transition; a key
held over consecutive frames counts as one transition; and the flipped value equals the original
exactly when the number of transitions is even. -/
theorem toggles_fire_once_per_fresh_press {K : Type} [LinearOrderedField K] :
    (∀ (key : Nat) (prevKeys : Nat → Bool) (frames : List (Nat → Nat)),
      ShadingDemo.pressTrace key (Function.update prevKeys key false) frames =
        Smf.edgeTrace false (frames.map (fun g => Smf.held g key))) ∧
    (∀ (r : ShadingDemo.Rig K) (frames : List (Nat → Nat)),
      (ShadingDemo.runFrames { r with prevKeys := fun _ => false } frames).g_usePhong =
        (fun x : Bool => !x)^[Smf.risingEdges false
          (frames.map (fun g => Smf.held g Smf.GLFW_KEY_G))] r.g_usePhong) ∧
    (∀ (r : ShadingDemo.Rig K) (frames : List (Nat → Nat)),
      (ShadingDemo.runFrames { r with prevKeys := fun _ => false } frames).g_perspective =
        (fun x : Bool => !x)^[Smf.risingEdges false
          (frames.map (fun g => Smf.held g Smf.GLFW_KEY_P))] r.g_perspective) ∧
    (∀ (r : SmfViewer.Rig K) (frames : List (Nat → Nat)),
      (SmfViewer.runFrames { r with pWasPressed := false } frames).perspectiveProj =
        (fun x : Bool => !x)^[Smf.risingEdges false
          (frames.map (fun g => decide (g Smf.GLFW_KEY_P = Smf.GLFW_PRESS)))]
          r.perspectiveProj) ∧
    (∀ n : Nat, Smf.risingEdges false (List.replicate (n + 1) true) = 1) ∧
    (∀ (n : Nat) (b : Bool), (fun x : Bool => !x)^[n] b = b ↔ Even n) := by
  refine ⟨?_, ?_, ?_, ?_, ?_, ?_⟩
  · intro key prevKeys frames
    rw [ShadingDemo.pressTrace_eq_edgeTrace, Function.update_same]
  · intro r frames
    exact ShadingDemo.runFrames_usePhong frames _
  · intro r frames
    exact ShadingDemo.runFrames_perspective frames _
  · intro r frames
    exact SmfViewer.runFrames_perspectiveProj frames _
  · intro n
    rw [List.replicate_succ, SmfViewer.risingEdges_cons, SmfViewer.risingEdges_replicate_true]
    rfl
  · intro n b
    exact SmfViewer.not_iterate_eq_self_iff n b

namespace SmfViewer
open Smf

/-! ## Range checks at parse time and at assembly -/

theorem Vec3.add_zero_right {K : Type} [LinearOrderedField K] (v : Vec3 K) : v + 0 = v := by
  cases v
  simp [Vec3.add_def, Vec3.zero_def]

theorem cross_zero_left {K : Type} [LinearOrderedField K] (v : Vec3 K) :
    cross (0 : Vec3 K) v = 0 := by
  simp [cross, Vec3.zero_def]

theorem cross_zero_right {K : Type} [LinearOrderedField K] (v : Vec3 K) :
    cross v (0 : Vec3 K) = 0 := by
  simp [cross, Vec3.zero_def]

theorem cross_self {K : Type} [LinearOrderedField K] (v : Vec3 K) : cross v v = 0 := by
  simp [cross, Vec3.zero_def, mul_comm]

theorem Vec3.sub_self_eq_zero {K : Type} [LinearOrderedField K] (v : Vec3 K) : v - v = 0 := by
  simp [Vec3.sub_def, Vec3.zero_def]

theorem normalize_zero {K : Type} [LinearOrderedField K] (sqrt : K → K) :
    Smf.normalize sqrt (0 : Vec3 K) = 0 := by
  simp [Smf.normalize, Vec3.scale, Vec3.zero_def]

theorem faceNormal_eq {K : Type} [LinearOrderedField K] (sqrt : K → K)
    (positions : List (Vec3 K)) (f : IVec3) :
    faceNormal sqrt positions f =
      if length sqrt (edgeCross positions f) > 1 / 100000000 then
        Smf.normalize sqrt (edgeCross positions f)
      else edgeCross positions f := rfl

theorem faceNormal_of_edgeCross_zero {K : Type} [LinearOrderedField K] (sqrt : K → K)
    (positions : List (Vec3 K)) (f : IVec3) (h : edgeCross positions f = 0) :
    faceNormal sqrt positions f = 0 := by
  rw [faceNormal_eq, h, normalize_zero]
  split_ifs <;> rfl

theorem edgeCross_of_repeated_corner {K : Type} [LinearOrderedField K]
    (positions : List (Vec3 K)) (f : IVec3)
    (h : toSizeT f.x = toSizeT f.y ∨ toSizeT f.x = toSizeT f.z ∨ toSizeT f.y = toSizeT f.z) :
    edgeCross positions f = 0 := by
  unfold edgeCross
  rcases h with h | h | h
  · rw [h, Vec3.sub_self_eq_zero, cross_zero_left]
  · rw [h, Vec3.sub_self_eq_zero, cross_zero_right]
  · rw [h, cross_self]

theorem addAt_length {K : Type} [LinearOrderedField K] (normals : List (Vec3 K)) (j : Nat)
    (fn : Vec3 K) : (addAt normals j fn).length = normals.length := by
  unfold addAt
  rw [List.length_set]

theorem accumulate_length {K : Type} [LinearOrderedField K] (sqrt : K → K)
    (positions normals : List (Vec3 K)) (f : IVec3) :
    (accumulate sqrt positions normals f).length = normals.length := by
  unfold accumulate
  split_ifs
  · rfl
  · simp only [addAt_length]

theorem getD_addAt_self {K : Type} [LinearOrderedField K] (normals : List (Vec3 K)) (i : Nat)
    (fn : Vec3 K) (hi : i < normals.length) :
    (addAt normals i fn).getD i 0 = normals.getD i 0 + fn := by
  unfold addAt
  simp only [List.getD_eq_getElem?_getD, List.getElem?_set, if_pos hi, if_true,
    Option.getD_some]

theorem getD_addAt {K : Type} [LinearOrderedField K] (normals : List (Vec3 K)) (j i : Nat)
    (fn : Vec3 K) (hi : i < normals.length) :
    (addAt normals j fn).getD i 0 =
      if j = i then normals.getD i 0 + fn else normals.getD i 0 := by
  split_ifs with h
  · rw [h]; exact getD_addAt_self normals i fn hi
  · exact getD_addAt_ne normals j i fn h

theorem accumulate_getD {K : Type} [LinearOrderedField K] (sqrt : K → K)
    (positions normals : List (Vec3 K)) (f : IVec3) (i : Nat) (hi : i < normals.length) :
    (accumulate sqrt positions normals f).getD i 0 =
      if !outOfRange positions.length f && incident i f then
        normals.getD i 0 + faceNormal sqrt positions f
      else normals.getD i 0 := by
  by_cases hout : outOfRange positions.length f = true
  · unfold accumulate
    simp [hout]
  · have hout2 : outOfRange positions.length f = false := by simpa using hout
    unfold accumulate
    rw [if_neg hout]
    simp only
    rw [getD_addAt _ _ _ _ (by simpa [addAt_length] using hi),
      getD_addAt _ _ _ _ (by simpa [addAt_length] using hi), getD_addAt _ _ _ _ hi]
    simp only [hout2, Bool.not_false, Bool.true_and, incident, Bool.or_eq_true,
      decide_eq_true_eq]
    by_cases hx : toSizeT f.x = i <;> by_cases hy : toSizeT f.y = i <;>
      by_cases hz : toSizeT f.z = i
    · have h0 := faceNormal_of_edgeCross_zero sqrt positions f
        (edgeCross_of_repeated_corner positions f (Or.inl (hx.trans hy.symm)))
      simp [hx, hy, hz, h0, Vec3.add_zero_right]
    · have h0 := faceNormal_of_edgeCross_zero sqrt positions f
        (edgeCross_of_repeated_corner positions f (Or.inl (hx.trans hy.symm)))
      simp [hx, hy, hz, h0, Vec3.add_zero_right]
    · have h0 := faceNormal_of_edgeCross_zero sqrt positions f
        (edgeCross_of_repeated_corner positions f (Or.inr (Or.inl (hx.trans hz.symm))))
      simp [hx, hy, hz, h0, Vec3.add_zero_right]
    · simp [hx, hy, hz]
    · have h0 := faceNormal_of_edgeCross_zero sqrt positions f
        (edgeCross_of_repeated_corner positions f (Or.inr (Or.inr (hy.trans hz.symm))))
      simp [hx, hy, hz, h0, Vec3.add_zero_right]
    · simp [hx, hy, hz]
    · simp [hx, hy, hz]
    · simp [hx, hy, hz]

theorem foldl_accumulate_getD {K : Type} [LinearOrderedField K] (sqrt : K → K)
    (positions : List (Vec3 K)) (i : Nat) (faces : List IVec3) :
    ∀ normals : List (Vec3 K), i < normals.length →
      (faces.foldl (accumulate sqrt positions) normals).getD i 0 =
        faces.foldl (fun s f => if !outOfRange positions.length f && incident i f then
          s + faceNormal sqrt positions f else s) (normals.getD i 0) := by
  induction faces with
  | nil => intro normals _; rfl
  | cons f rest ih =>
    intro normals hi
    rw [List.foldl_cons, List.foldl_cons,
      ih _ (by rw [accumulate_length]; exact hi), accumulate_getD sqrt positions normals f i hi]

theorem sqrt_sq_real (a : ℝ) (h : 0 ≤ a) : Real.sqrt (a * a) = a := by
  rw [← sq, Real.sqrt_sq h]

/-- C13 (counterexample). Over the reals, for the positions (0,0,0), (2,0,0), (0,2,0) and the
face (0,1,2), the running normal sum of vertex 0 is the unit vector (0,0,1), while the sum of the
unnormalized edge cross products of its incident faces is (0,0,4). -/
theorem normal_sum_not_area_weighted :
    (accumulatedNormals Real.sqrt [(⟨0, 0, 0⟩ : Vec3 ℝ), ⟨2, 0, 0⟩, ⟨0, 2, 0⟩]
      [⟨0, 1, 2⟩]).getD 0 0 = ⟨0, 0, 1⟩ ∧
    incidentSum (edgeCross [(⟨0, 0, 0⟩ : Vec3 ℝ), ⟨2, 0, 0⟩, ⟨0, 2, 0⟩]) 3 0 [⟨0, 1, 2⟩] =
      ⟨0, 0, 4⟩ ∧
    (accumulatedNormals Real.sqrt [(⟨0, 0, 0⟩ : Vec3 ℝ), ⟨2, 0, 0⟩, ⟨0, 2, 0⟩]
      [⟨0, 1, 2⟩]).getD 0 0 ≠
      incidentSum (edgeCross [(⟨0, 0, 0⟩ : Vec3 ℝ), ⟨2, 0, 0⟩, ⟨0, 2, 0⟩]) 3 0 [⟨0, 1, 2⟩] := by
  have t0 : toSizeT 0 = 0 := by decide
  have t1 : toSizeT 1 = 1 := by decide
  have t2 : toSizeT 2 = 2 := by decide
  have hor : outOfRange 3 ⟨0, 1, 2⟩ = false := by decide
  have hinc : incident 0 ⟨0, 1, 2⟩ = true := by decide
  have hc : edgeCross [(⟨0, 0, 0⟩ : Vec3 ℝ), ⟨2, 0, 0⟩, ⟨0, 2, 0⟩] ⟨0, 1, 2⟩ = ⟨0, 0, 4⟩ := by
    unfold edgeCross
    simp only [t0, t1, t2, List.getD_cons_zero, List.getD_cons_succ, Vec3.sub_def, cross]
    norm_num
  have hs : Real.sqrt 16 = 4 := by
    have := sqrt_sq_real 4 (by norm_num)
    norm_num at this
    exact this
  have hfn : faceNormal Real.sqrt [(⟨0, 0, 0⟩ : Vec3 ℝ), ⟨2, 0, 0⟩, ⟨0, 2, 0⟩] ⟨0, 1, 2⟩ =
      ⟨0, 0, 1⟩ := by
    rw [faceNormal_eq, hc]
    have hd : dot (⟨0, 0, 4⟩ : Vec3 ℝ) ⟨0, 0, 4⟩ = 16 := by
      unfold dot; norm_num
    unfold length Smf.normalize
    rw [hd, hs, if_pos (by norm_num)]
    simp only [Vec3.scale]
    norm_num
  have h1 : (accumulatedNormals Real.sqrt [(⟨0, 0, 0⟩ : Vec3 ℝ), ⟨2, 0, 0⟩, ⟨0, 2, 0⟩]
      [⟨0, 1, 2⟩]).getD 0 0 = ⟨0, 0, 1⟩ := by
    unfold accumulatedNormals
    rw [foldl_accumulate_getD _ _ _ _ _ (by simp)]
    simp only [List.foldl_cons, List.foldl_nil, List.length_cons, List.length_nil, hor, hinc,
      hfn]
    simp [Vec3.add_def, Vec3.zero_def]
  have h2 : incidentSum (edgeCross [(⟨0, 0, 0⟩ : Vec3 ℝ), ⟨2, 0, 0⟩, ⟨0, 2, 0⟩]) 3 0
      [⟨0, 1, 2⟩] = ⟨0, 0, 4⟩ := by
    unfold incidentSum
    simp only [List.foldl_cons, List.foldl_nil, hor, hinc, hc]
    simp [Vec3.add_def, Vec3.zero_def]
  refine ⟨h1, h2, ?_⟩
  rw [h1, h2]
  intro h
  have h3 := congrArg Vec3.z h
  norm_num at h3

/-- C13 (amended). In `build_mesh_from_smf` the running normal sum of a vertex, before the final
per-vertex normalization, is the sum over its incident faces within range of the per-face vector,
which is the edge cross product normalized to unit length when its length exceeds 1e-8 and the
raw cross product otherwise: the accumulation is not area-weighted. -/
theorem normal_sum_is_sum_of_face_normals {K : Type} [LinearOrderedField K] (sqrt : K → K)
    (positions : List (Vec3 K)) (faces : List IVec3) (i : Nat) (hi : i < positions.length) :
    (accumulatedNormals sqrt positions faces).getD i 0 =
      incidentSum (faceNormal sqrt positions) positions.length i faces ∧
    (∀ f : IVec3, faceNormal sqrt positions f =
      if length sqrt (edgeCross positions f) > 1 / 100000000 then
        Smf.normalize sqrt (edgeCross positions f)
      else edgeCross positions f) := by
  refine ⟨?_, fun f => faceNormal_eq sqrt positions f⟩
  unfold accumulatedNormals incidentSum
  rw [foldl_accumulate_getD sqrt positions i faces _ (by simpa using hi), getD_replicate_zero]

theorem normal_sum_is_sum_of_face_normals_witness :
    (accumulatedNormals (fun x : ℚ => x) [(⟨0, 0, 0⟩ : Vec3 ℚ), ⟨2, 0, 0⟩, ⟨0, 2, 0⟩]
        [⟨0, 1, 2⟩, ⟨0, 2, 1⟩, ⟨0, 1, 7⟩]).getD 1 0 =
      incidentSum (faceNormal (fun x : ℚ => x) [(⟨0, 0, 0⟩ : Vec3 ℚ), ⟨2, 0, 0⟩, ⟨0, 2, 0⟩])
        3 1 [⟨0, 1, 2⟩, ⟨0, 2, 1⟩, ⟨0, 1, 7⟩] :=
  (normal_sum_is_sum_of_face_normals (fun x : ℚ => x)
    [(⟨0, 0, 0⟩ : Vec3 ℚ), ⟨2, 0, 0⟩, ⟨0, 2, 0⟩] [⟨0, 1, 2⟩, ⟨0, 2, 1⟩, ⟨0, 1, 7⟩] 1
    (by decide)).1

/-! ## Centroid, bounding radius and model transform -/

theorem foldl_add_x {K : Type} [LinearOrderedField K] (positions : List (Vec3 K)) :
    ∀ a : Vec3 K, (positions.foldl (fun c p => c + p) a).x =
      a.x + (positions.map Vec3.x).sum := by
  induction positions with
  | nil => intro a; simp
  | cons p rest ih =>
    intro a
    rw [List.foldl_cons, ih, Vec3.add_def]
    simp [add_assoc]

theorem foldl_add_y {K : Type} [LinearOrderedField K] (positions : List (Vec3 K)) :
    ∀ a : Vec3 K, (positions.foldl (fun c p => c + p) a).y =
      a.y + (positions.map Vec3.y).sum := by
  induction positions with
  | nil => intro a; simp
  | cons p rest ih =>
    intro a
    rw [List.foldl_cons, ih, Vec3.add_def]
    simp [add_assoc]

theorem foldl_add_z {K : Type} [LinearOrderedField K] (positions : List (Vec3 K)) :
    ∀ a : Vec3 K, (positions.foldl (fun c p => c + p) a).z =
      a.z + (positions.map Vec3.z).sum := by
  induction positions with
  | nil => intro a; simp
  | cons p rest ih =>
    intro a
    rw [List.foldl_cons, ih, Vec3.add_def]
    simp [add_assoc]

theorem centroid_eq_mean {K : Type} [LinearOrderedField K] (positions : List (Vec3 K)) :
    centroid positions =
      ⟨(positions.map Vec3.x).sum / (positions.length : K),
       (positions.map Vec3.y).sum / (positions.length : K),
       (positions.map Vec3.z).sum / (positions.length : K)⟩ := by
  unfold centroid Vec3.divs
  rw [foldl_add_x, foldl_add_y, foldl_add_z]
  simp [Vec3.zero_def]

theorem foldl_max_ge_init {K : Type} [LinearOrderedField K] {α : Type} (d : α → K)
    (l : List α) : ∀ a : K, a ≤ l.foldl (fun m p => max m (d p)) a := by
  induction l with
  | nil => intro a; exact le_refl _
  | cons p rest ih =>
    intro a
    exact le_trans (le_max_left _ _) (ih _)

theorem foldl_max_ge_mem {K : Type} [LinearOrderedField K] {α : Type} (d : α → K)
    (l : List α) : ∀ a : K, ∀ p ∈ l, d p ≤ l.foldl (fun m p => max m (d p)) a := by
  induction l with
  | nil => intro a p hp; simp at hp
  | cons q rest ih =>
    intro a p hp
    rcases List.mem_cons.1 hp with rfl | hp
    · exact le_trans (le_max_right _ _) (foldl_max_ge_init d rest _)
    · exact ih _ p hp

theorem foldl_max_attained {K : Type} [LinearOrderedField K] {α : Type} (d : α → K)
    (l : List α) : ∀ a : K, l.foldl (fun m p => max m (d p)) a = a ∨
      ∃ p ∈ l, l.foldl (fun m p => max m (d p)) a = d p := by
  induction l with
  | nil => intro a; exact Or.inl rfl
  | cons q rest ih =>
    intro a
    rw [List.foldl_cons]
    rcases ih (max a (d q)) with h | ⟨p, hp, h⟩
    · rcases max_choice a (d q) with hm | hm
      · left; rw [h, hm]
      · right; exact ⟨q, List.mem_cons_self _ _, by rw [h, hm]⟩
    · right; exact ⟨p, List.mem_cons_of_mem _ hp, h⟩

theorem length_nonneg_real (v : Vec3 ℝ) : 0 ≤ length Real.sqrt v := Real.sqrt_nonneg _

theorem boundingRadius_attained (positions : List (Vec3 ℝ)) (c : Vec3 ℝ)
    (hne : positions ≠ []) :
    ∃ p ∈ positions, length Real.sqrt (p - c) = boundingRadius Real.sqrt positions c := by
  unfold boundingRadius
  rcases foldl_max_attained (fun p => length Real.sqrt (p - c)) positions 0 with h | ⟨p, hp, h⟩
  · obtain ⟨q, rest, rfl⟩ := List.exists_cons_of_ne_nil hne
    refine ⟨q, List.mem_cons_self _ _, ?_⟩
    have hle := foldl_max_ge_mem (fun p => length Real.sqrt (p - c)) (q :: rest) 0 q
      (List.mem_cons_self _ _)
    rw [h] at hle ⊢
    exact le_antisymm hle (length_nonneg_real _)
  · exact ⟨p, hp, h.symm⟩

theorem length_scale_real (v : Vec3 ℝ) (s : ℝ) (hs : 0 ≤ s) :
    length Real.sqrt (v.scale s) = s * length Real.sqrt v := by
  unfold length
  rw [dot_scale, Real.sqrt_mul (mul_self_nonneg s), Real.sqrt_mul_self hs]

theorem scaled_radius_le_one (R d : ℝ) (hd : d ≤ R) :
    0 < (if R ≤ 1 / 100000 then 1 else R) ∧
      1 / (if R ≤ 1 / 100000 then 1 else R) * d ≤ 1 := by
  split_ifs with h
  · constructor
    · norm_num
    · have : d ≤ 1 / 100000 := le_trans hd h
      norm_num
      linarith
  · have hR : 0 < R := lt_trans (by norm_num) (not_le.1 h)
    refine ⟨hR, ?_⟩
    rw [one_div, inv_mul_le_iff₀ hR]
    linarith

/-- C15 (counterexample). For the file `v 1 0 0`, the position list is non-empty, yet
`build_mesh_from_smf` returns before computing anything because `load_smf` found no face:
`modelCentroid` keeps its initial value (0,0,0), which is not the mean (1,0,0). -/
theorem build_mesh_without_faces_leaves_centroid :
    (load_smf (readDecimal : List Char → Option (ℝ × List Char))
      (some positionsOnlyFile) [] []).2.1 = [⟨1, 0, 0⟩] ∧
    build_mesh_from_smf Real.sqrt readDecimal (some positionsOnlyFile) initialGlobals =
      (false, initialGlobals) ∧
    (build_mesh_from_smf Real.sqrt readDecimal (some positionsOnlyFile)
      initialGlobals).2.modelCentroid ≠
      centroid (load_smf (readDecimal : List Char → Option (ℝ × List Char))
        (some positionsOnlyFile) [] []).2.1 := by
  have hload : load_smf (readDecimal : List Char → Option (ℝ × List Char))
      (some positionsOnlyFile) [] [] = (false, [⟨1, 0, 0⟩], []) := by
    unfold load_smf positionsOnlyFile
    simp only [List.foldl_cons, List.foldl_nil]
    rw [loadLine_v readDecimal _ ['v', ' ', '1', ' ', '0', ' ', '0'] ⟨1, 0, 0⟩ (by decide)
      readVec3_readDecimal_100]
    rfl
  have hbuild := build_mesh_of_load_failed Real.sqrt readDecimal (some positionsOnlyFile)
    initialGlobals (by rw [hload])
  refine ⟨by rw [hload], hbuild, ?_⟩
  rw [hbuild, hload, centroid_eq_mean]
  intro h
  have h2 := congrArg Vec3.x h
  simp [initialGlobals] at h2

/-- C15 (amended). Whenever `load_smf` succeeds (at least one position and one face), over the
reals `build_mesh_from_smf` sets `modelCentroid` to the mean of the positions and `modelScale` to
1/R, where R is the maximum distance from the centroid to a position, replaced by 1 when
R ≤ 0.00001; the divisors are positive, `modelScale` is positive, the draw-time transform maps
every position to a point at distance at most 1 from the origin, and the stored vertex positions
are the parsed ones. -/
theorem build_mesh_centroid_and_scale (rd : List Char → Option (ℝ × List Char))
    (file : Option (List (List Char))) (g : Globals ℝ)
    (hok : (load_smf rd file [] []).1 = true) :
    (0 : ℝ) < ((load_smf rd file [] []).2.1.length : ℝ) ∧
    (build_mesh_from_smf Real.sqrt rd file g).2.modelCentroid =
      ⟨((load_smf rd file [] []).2.1.map Vec3.x).sum / ((load_smf rd file [] []).2.1.length : ℝ),
       ((load_smf rd file [] []).2.1.map Vec3.y).sum / ((load_smf rd file [] []).2.1.length : ℝ),
       ((load_smf rd file [] []).2.1.map Vec3.z).sum /
         ((load_smf rd file [] []).2.1.length : ℝ)⟩ ∧
    (∀ p ∈ (load_smf rd file [] []).2.1,
      length Real.sqrt (p - (build_mesh_from_smf Real.sqrt rd file g).2.modelCentroid) ≤
        boundingRadius Real.sqrt (load_smf rd file [] []).2.1
          (build_mesh_from_smf Real.sqrt rd file g).2.modelCentroid) ∧
    (∃ p ∈ (load_smf rd file [] []).2.1,
      length Real.sqrt (p - (build_mesh_from_smf Real.sqrt rd file g).2.modelCentroid) =
        boundingRadius Real.sqrt (load_smf rd file [] []).2.1
          (build_mesh_from_smf Real.sqrt rd file g).2.modelCentroid) ∧
    (build_mesh_from_smf Real.sqrt rd file g).2.modelScale =
      1 / (if boundingRadius Real.sqrt (load_smf rd file [] []).2.1
            (build_mesh_from_smf Real.sqrt rd file g).2.modelCentroid ≤ 1 / 100000 then 1
          else boundingRadius Real.sqrt (load_smf rd file [] []).2.1
            (build_mesh_from_smf Real.sqrt rd file g).2.modelCentroid) ∧
    0 < (if boundingRadius Real.sqrt (load_smf rd file [] []).2.1
            (build_mesh_from_smf Real.sqrt rd file g).2.modelCentroid ≤ 1 / 100000 then (1 : ℝ)
          else boundingRadius Real.sqrt (load_smf rd file [] []).2.1
            (build_mesh_from_smf Real.sqrt rd file g).2.modelCentroid) ∧
    0 < (build_mesh_from_smf Real.sqrt rd file g).2.modelScale ∧
    (∀ p ∈ (load_smf rd file [] []).2.1,
      length Real.sqrt (modelBase (build_mesh_from_smf Real.sqrt rd file g).2 p) ≤ 1) ∧
    (build_mesh_from_smf Real.sqrt rd file g).2.vertices.map Vertex.Position =
      (load_smf rd file [] []).2.1 := by
  have hne : (load_smf rd file [] []).2.1 ≠ [] := ((load_smf_flag rd file).1 hok).1
  have hlen : (0 : ℝ) < ((load_smf rd file [] []).2.1.length : ℝ) := by
    have : 0 < (load_smf rd file [] []).2.1.length := List.length_pos.2 hne
    exact_mod_cast this
  rw [build_mesh_of_load Real.sqrt rd file g hok]
  simp only
  have hmax := fun p hp => foldl_max_ge_mem
    (fun p => length Real.sqrt (p - centroid (load_smf rd file [] []).2.1))
    (load_smf rd file [] []).2.1 0 p hp
  have hpos := fun p (hp : p ∈ (load_smf rd file [] []).2.1) => (scaled_radius_le_one
    (boundingRadius Real.sqrt (load_smf rd file [] []).2.1
      (centroid (load_smf rd file [] []).2.1))
    (length Real.sqrt (p - centroid (load_smf rd file [] []).2.1))
    (hmax p hp))
  obtain ⟨q, hq, -⟩ := boundingRadius_attained (load_smf rd file [] []).2.1
    (centroid (load_smf rd file [] []).2.1) hne
  refine ⟨hlen, centroid_eq_mean _, hmax, boundingRadius_attained _ _ hne, trivial,
    (hpos q hq).1, one_div_pos.2 (hpos q hq).1, ?_, map_Position_vertices Real.sqrt _ _⟩
  intro p hp
  unfold modelBase
  simp only
  rw [length_scale_real _ _ (le_of_lt (one_div_pos.2 (hpos p hp).1))]
  exact (hpos p hp).2

theorem build_mesh_centroid_and_scale_witness :
    (build_mesh_from_smf Real.sqrt readDecimal (some triangleFile)
        initialGlobals).2.vertices.map Vertex.Position =
      (load_smf (readDecimal : List Char → Option (ℝ × List Char))
        (some triangleFile) [] []).2.1 ∧
    0 < (build_mesh_from_smf Real.sqrt readDecimal (some triangleFile)
      initialGlobals).2.modelScale :=
  ⟨(build_mesh_centroid_and_scale readDecimal (some triangleFile) initialGlobals
      (by decide)).2.2.2.2.2.2.2.2,
   (build_mesh_centroid_and_scale readDecimal (some triangleFile) initialGlobals
      (by decide)).2.2.2.2.2.2.1⟩

end SmfViewer

namespace ShadingDemo
open Smf

/-! ## Vertex normals of `buildMeshFromSMF` -/

theorem normalize_zero_vec {K : Type} [LinearOrderedField K] (sqrt : K → K) :
    Smf.normalize sqrt (0 : Vec3 K) = ⟨0, 0, 0⟩ := by
  show Smf.normalize sqrt (⟨0, 0, 0⟩ : Vec3 K) = ⟨0, 0, 0⟩
  simp [Smf.normalize, Vec3.scale]

theorem accumulate_collinear {K : Type} [LinearOrderedField K] (sqrt : K → K)
    (normals : List (Vec3 K)) :
    accumulate sqrt [(⟨0, 0, 0⟩ : Vec3 K), ⟨1, 0, 0⟩, ⟨2, 0, 0⟩] normals ⟨0, 1, 2⟩ =
      addAt (addAt (addAt normals 0 (Smf.normalize sqrt 0)) 1 (Smf.normalize sqrt 0)) 2
        (Smf.normalize sqrt 0) := by
  have t0 : toSizeT 0 = 0 := by decide
  have t1 : toSizeT 1 = 1 := by decide
  have t2 : toSizeT 2 = 2 := by decide
  have hor : outOfRange 3 ⟨0, 1, 2⟩ = false := by decide
  have hc : cross ((⟨1, 0, 0⟩ : Vec3 K) - ⟨0, 0, 0⟩) ((⟨2, 0, 0⟩ : Vec3 K) - ⟨0, 0, 0⟩) = 0 := by
    show cross (⟨1 - 0, 0 - 0, 0 - 0⟩ : Vec3 K) ⟨2 - 0, 0 - 0, 0 - 0⟩ = ⟨0, 0, 0⟩
    simp [cross]
  unfold accumulate
  simp only [List.length_cons, List.length_nil, hor, t0, t1, t2, List.getD_cons_zero,
    List.getD_cons_succ, hc]
  rfl

/-- C14 (evaluation at the failing input). For the file `v 0 0 0`, `v 1 0 0`, `v 0 1 0`,
`v 5 5 5`, `f 1 2 3`, `buildMeshFromSMF` succeeds and the normal stored for the fourth vertex,
which no face touches, is `glm::normalize` applied to the zero sum: no default normal is
substituted. In the field model that value is the zero vector, which is neither the default
(0, 0, 1) nor of unit length. Likewise the collinear face (0,0,0), (1,0,0), (2,0,0) adds
`glm::normalize` of the zero vector to the sums of its three vertices. -/
theorem buildMeshFromSMF_normalizes_zero_sum {K : Type} [LinearOrderedField K]
    (sqrt : K → K) :
    (buildMeshFromSMF sqrt readDecimal (some isolatedVertexInput) initialGlobals).1 = true ∧
    ((buildMeshFromSMF sqrt readDecimal (some isolatedVertexInput)
      initialGlobals).2.g_vertices.map Vertex.normal)[3]? =
        some (Smf.normalize sqrt (0 : Vec3 K)) ∧
    Smf.normalize sqrt (0 : Vec3 K) = ⟨0, 0, 0⟩ ∧
    Smf.normalize sqrt (0 : Vec3 K) ≠ ⟨0, 0, 1⟩ ∧
    dot (Smf.normalize sqrt (0 : Vec3 K)) (Smf.normalize sqrt (0 : Vec3 K)) ≠ 1 ∧
    (∀ normals : List (Vec3 K),
      accumulate sqrt [(⟨0, 0, 0⟩ : Vec3 K), ⟨1, 0, 0⟩, ⟨2, 0, 0⟩] normals ⟨0, 1, 2⟩ =
        addAt (addAt (addAt normals 0 (Smf.normalize sqrt 0)) 1 (Smf.normalize sqrt 0)) 2
          (Smf.normalize sqrt 0)) := by
  refine ⟨rfl, rfl, normalize_zero_vec sqrt, ?_, ?_, accumulate_collinear sqrt⟩
  · rw [normalize_zero_vec]
    intro h
    have := congrArg Vec3.z h
    simp at this
  · rw [normalize_zero_vec]
    simp [dot]

end ShadingDemo
